import Mathlib

/-!
Shallow embedding of the rawweb photo-library core (`src/db.rs`,
`src/metadata.rs`, `src/main.rs`).

Modelling conventions:
* The SQLite `files` table is an association list of `FileRow` values keyed by
  `path`; `INSERT .. ON CONFLICT(path) DO UPDATE` becomes update-or-append.
* `serde_json` serialization of the `tags: Vec<String>` column is modelled by
  an executable encoder/decoder pair over `List Char` that mirrors
  serde_json's escaping rules and its strict parser (the decoder is a model:
  it accepts serde's canonical output and rejects malformed input).
* SQLite's `LIKE` operator (ASCII-case-insensitive, `%`/`_` wildcards) is
  modelled by `likeMatchF`, a fuel-indexed matcher; the wrapper `sqlLike`
  supplies sufficient fuel.
* Rust `f64` arithmetic in the GPS conversion is idealised by `Rat`; `f32`
  `round()` (half away from zero) by `ratRound`.
* Byte indices and character indices coincide in the model (all string data
  the claims exercise is ASCII).
-/

namespace RawWeb

/-- Lowercase-hex digit, as `serde_json` writes in `\u00XX` escapes. -/
def hexDigitChar (n : Nat) : Char :=
  if n < 10 then Char.ofNat (48 + n) else Char.ofNat (87 + n)

/-- Value of a hex digit (accepting both cases, as a JSON parser does). -/
def hexVal (c : Char) : Option Nat :=
  if 48 ≤ c.toNat ∧ c.toNat ≤ 57 then some (c.toNat - 48)
  else if 97 ≤ c.toNat ∧ c.toNat ≤ 102 then some (c.toNat - 87)
  else if 65 ≤ c.toNat ∧ c.toNat ≤ 70 then some (c.toNat - 55)
  else none

/-- `serde_json`'s escaping of a single character inside a JSON string:
`"` and `\` are escaped, the control characters 0x08/0x09/0x0A/0x0C/0x0D get
their short escapes, all other control characters become `\u00XX`, everything
else is emitted verbatim. -/
def escChar (c : Char) : List Char :=
  if c = '"' then ['\\', '"']
  else if c = '\\' then ['\\', '\\']
  else if c.toNat = 8 then ['\\', 'b']
  else if c.toNat = 9 then ['\\', 't']
  else if c.toNat = 10 then ['\\', 'n']
  else if c.toNat = 12 then ['\\', 'f']
  else if c.toNat = 13 then ['\\', 'r']
  else if c.toNat < 32 then
    ['\\', 'u', '0', '0', hexDigitChar (c.toNat / 16), hexDigitChar (c.toNat % 16)]
  else [c]

def escBody (s : List Char) : List Char := (s.map escChar).flatten

/-- A JSON string literal (both quotes included). -/
def encodeStrChars (t : String) : List Char := '"' :: (escBody t.data ++ ['"'])

/-- Comma-separated JSON string literals, as serde_json writes the elements of
a `Vec<String>` (no spaces). -/
def encodeItems : List String → List Char
  | [] => []
  | [t] => encodeStrChars t
  | t :: ts => encodeStrChars t ++ ',' :: encodeItems ts

/-- `serde_json::to_string(&tags)` for `tags : Vec<String>`. -/
def encodeTags (ts : List String) : String :=
  String.mk ('[' :: (encodeItems ts ++ [']']))

/-- The inverse of `escChar` for two-character escapes. -/
def unescape (e : Char) : Option Char :=
  if e = '"' then some '"'
  else if e = '\\' then some '\\'
  else if e = '/' then some '/'
  else if e = 'b' then some (Char.ofNat 8)
  else if e = 'f' then some (Char.ofNat 12)
  else if e = 'n' then some (Char.ofNat 10)
  else if e = 'r' then some (Char.ofNat 13)
  else if e = 't' then some (Char.ofNat 9)
  else none

/-- Parse the body of a JSON string (the opening quote already consumed);
returns the decoded characters and the input after the closing quote.
Raw control characters and bad escapes are rejected, like serde_json.
(Surrogate `\u` escapes are rejected by the model.) -/
def parseStr : List Char → Option (List Char × List Char)
  | [] => none
  | '"' :: rest => some ([], rest)
  | '\\' :: 'u' :: h1 :: h2 :: h3 :: h4 :: rest =>
    match hexVal h1, hexVal h2, hexVal h3, hexVal h4 with
    | some a, some b, some c, some d =>
      let n := ((a * 16 + b) * 16 + c) * 16 + d
      if n < 55296 ∨ 57344 ≤ n then
        (parseStr rest).map (fun p => (Char.ofNat n :: p.1, p.2))
      else none
    | _, _, _, _ => none
  | '\\' :: e :: rest =>
    match unescape e with
    | some c => (parseStr rest).map (fun p => (c :: p.1, p.2))
    | none => none
  | ['\\'] => none
  | c :: rest =>
    if c.toNat < 32 then none
    else (parseStr rest).map (fun p => (c :: p.1, p.2))

def isJsonWs (c : Char) : Bool := c = ' ' || c = '\t' || c = '\n' || c = '\r'

def skipWs (cs : List Char) : List Char := cs.dropWhile isJsonWs

/-- Parse one or more comma-separated JSON strings followed by `]`.
Fuel-indexed (the wrapper passes enough fuel for the whole input). -/
def parseItems : Nat → List Char → Option (List String × List Char)
  | 0, _ => none
  | fuel + 1, cs =>
    match skipWs cs with
    | '"' :: rest =>
      match parseStr rest with
      | some (s, r) =>
        match skipWs r with
        | ',' :: r2 => (parseItems fuel r2).map (fun p => (String.mk s :: p.1, p.2))
        | ']' :: r2 => some ([String.mk s], r2)
        | _ => none
      | none => none
    | _ => none

/-- Model of `serde_json::from_str::<Vec<String>>`: a JSON array of strings,
with nothing but whitespace allowed after it. -/
def parseVecString (input : String) : Option (List String) :=
  match skipWs input.data with
  | '[' :: rest =>
    match skipWs rest with
    | ']' :: r2 => if skipWs r2 = [] then some [] else none
    | _ =>
      match parseItems (rest.length + 1) rest with
      | some (l, r) => if skipWs r = [] then some l else none
      | none => none
  | _ => none

/-! ## The `files` table (db.rs) -/

/-- One row of the SQLite `files` table, with the raw nullable columns
(`tags` is the raw TEXT column). -/
structure FileRow where
  path : String
  camera_rating : Option Int
  user_rating : Option Int
  tags : Option String
  gps_lat : Option Rat
  gps_lon : Option Rat
  taken_at : Option String
  orientation : Option Int
  file_size : Int
  last_modified : Int
deriving DecidableEq

/-- `FileMeta` from db.rs (tags already deserialized). -/
structure FileMeta where
  path : String
  camera_rating : Option Int
  user_rating : Option Int
  tags : List String
  gps_lat : Option Rat
  gps_lon : Option Rat
  taken_at : Option String
  orientation : Option Int
  file_size : Int
  last_modified : Int
deriving DecidableEq

/-- `SELECT .. WHERE path = ?` on the modelled table. -/
def dbGet (db : List FileRow) (path : String) : Option FileRow :=
  db.find? (fun r => r.path == path)

/-- `row_to_meta` (db.rs 190-208): the raw `tags` column is JSON-decoded,
with an absent or unparseable value mapped to the empty list. -/
def row_to_meta (r : FileRow) : FileMeta :=
  { path := r.path
    camera_rating := r.camera_rating
    user_rating := r.user_rating
    tags := (r.tags.bind (fun raw => parseVecString raw)).getD []
    gps_lat := r.gps_lat
    gps_lon := r.gps_lon
    taken_at := r.taken_at
    orientation := r.orientation
    file_size := r.file_size
    last_modified := r.last_modified }

/-- `get_file_meta` (db.rs 28-41). -/
def get_file_meta (db : List FileRow) (path : String) : Option FileMeta :=
  (dbGet db path).map row_to_meta

/-- `INSERT .. ON CONFLICT(path) DO UPDATE`: if a row with the same path
exists it is updated by `onConflict`, otherwise `row` is inserted (columns
not named in the INSERT list are NULL in `row`). -/
def dbUpsert (db : List FileRow) (row : FileRow) (onConflict : FileRow → FileRow) :
    List FileRow :=
  if (dbGet db row.path).isSome then
    db.map (fun r => if r.path == row.path then onConflict r else r)
  else db ++ [row]

/-- `upsert_file_meta` (db.rs 43-78): inserts or updates every column. -/
def upsert_file_meta (db : List FileRow) (m : FileMeta) : List FileRow :=
  dbUpsert db
    ⟨m.path, m.camera_rating, m.user_rating, some (encodeTags m.tags), m.gps_lat,
      m.gps_lon, m.taken_at, m.orientation, m.file_size, m.last_modified⟩
    (fun r =>
      { r with
        camera_rating := m.camera_rating
        user_rating := m.user_rating
        tags := some (encodeTags m.tags)
        gps_lat := m.gps_lat
        gps_lon := m.gps_lon
        taken_at := m.taken_at
        file_size := m.file_size
        last_modified := m.last_modified
        orientation := m.orientation })

/-- `upsert_user_rating` (db.rs 80-106): INSERT names
(path, user_rating, tags, file_size, last_modified) with `"[]"` bound for
tags; the conflict clause updates only user_rating, file_size,
last_modified. -/
def upsert_user_rating (db : List FileRow) (path : String) (rating : Option Int)
    (file_size last_modified : Int) : List FileRow :=
  dbUpsert db
    ⟨path, none, rating, some "[]", none, none, none, none, file_size, last_modified⟩
    (fun r =>
      { r with user_rating := rating, file_size := file_size,
               last_modified := last_modified })

/-- `upsert_tags` (db.rs 108-135): INSERT names
(path, user_rating, tags, file_size, last_modified) with NULL bound for
user_rating; the conflict clause updates only tags, file_size,
last_modified. -/
def upsert_tags (db : List FileRow) (path : String) (tags : List String)
    (file_size last_modified : Int) : List FileRow :=
  dbUpsert db
    ⟨path, none, none, some (encodeTags tags), none, none, none, none,
      file_size, last_modified⟩
    (fun r =>
      { r with tags := some (encodeTags tags), file_size := file_size,
               last_modified := last_modified })

/-! ## Freshness coordinator (main.rs) -/

/-- `ExtractedMeta` from metadata.rs. -/
structure ExtractedMeta where
  camera_rating : Option Int
  gps_lat : Option Rat
  gps_lon : Option Rat
  taken_at : Option String
  orientation : Option Int
deriving DecidableEq

/-- The freshness test used by both `browse` (main.rs 365-367) and
`file_metadata` (main.rs 442-444): cached size and mtime match the live
file's and the orientation backfill marker is present. -/
def isFresh (m : FileMeta) (size modified : Int) : Bool :=
  m.file_size == size && m.last_modified == modified && m.orientation.isSome

/-- Outcome of one `file_metadata` request: the response record, whether the
extractor ran, and the record upserted into the cache (if any). -/
structure MetaReadResult where
  response : FileMeta
  ranExtractor : Bool
  upserted : Option FileMeta
deriving DecidableEq

/-- The cache/extract decision of `file_metadata` (main.rs 440-516,524-536),
parameterised by the cached record, the live stat (size, modified) and the
extractor's output for the file. The fresh branch answers from the cache and
does not extract; the stale branch re-extracts, merges the prior
user_rating/tags with the extracted fields (orientation defaulted to 0 when
absent) and upserts; the no-record branch extracts into a record with no
user fields. The response always carries the live size/modified. -/
def file_metadata (dbMeta : Option FileMeta) (path : String) (size modified : Int)
    (extracted : ExtractedMeta) : MetaReadResult :=
  match dbMeta with
  | some existing =>
    if isFresh existing size modified then
      ⟨{ existing with path := path, file_size := size, last_modified := modified },
        false, none⟩
    else
      let newMeta : FileMeta :=
        { path := path
          camera_rating := extracted.camera_rating
          user_rating := existing.user_rating
          tags := existing.tags
          gps_lat := extracted.gps_lat
          gps_lon := extracted.gps_lon
          taken_at := extracted.taken_at
          orientation := extracted.orientation.or (some 0)
          file_size := size
          last_modified := modified }
      ⟨newMeta, true, some newMeta⟩
  | none =>
    let newMeta : FileMeta :=
      { path := path
        camera_rating := extracted.camera_rating
        user_rating := none
        tags := []
        gps_lat := extracted.gps_lat
        gps_lon := extracted.gps_lon
        taken_at := extracted.taken_at
        orientation := extracted.orientation.or (some 0)
        file_size := size
        last_modified := modified }
    ⟨newMeta, true, some newMeta⟩

/-- The advisory `needs_scan` flag computed by `browse` (main.rs 362-380). -/
def browse_needs_scan (dbMeta : Option FileMeta) (size modified : Int) : Bool :=
  match dbMeta with
  | some m => !(isFresh m size modified)
  | none => true

/-! ## Metadata extractor (metadata.rs) -/

/-- The EXIF value shapes `parse_numeric` and `gps_value` inspect.
Rationals are (numerator, denominator) pairs of u32, as in the exif crate. -/
inductive ExifValue where
  | byteV (v : List Nat)
  | shortV (v : List Nat)
  | longV (v : List Nat)
  | sshortV (v : List Int)
  | slongV (v : List Int)
  | rationalV (v : List (Nat × Nat))
  | asciiV (s : String)
  | otherV
deriving DecidableEq

/-- Rust's `u32 as i32` cast (wrap into the signed 32-bit range). -/
def castU32ToI32 (n : Nat) : Int :=
  let m := n % 4294967296
  if m < 2147483648 then (m : Int) else (m : Int) - 4294967296

/-- `parse_numeric` (metadata.rs 122-131): first element of a numeric EXIF
value, cast to i32. -/
def parse_numeric : ExifValue → Option Int
  | .byteV v => v.head?.map (fun n => (n : Int))
  | .shortV v => v.head?.map (fun n => (n : Int))
  | .longV v => v.head?.map castU32ToI32
  | .sshortV v => v.head?
  | .slongV v => v.head?
  | _ => none

/-- Rust `i32::clamp(lo, hi)`. -/
def clampI (v lo hi : Int) : Int := if v < lo then lo else if v > hi then hi else v

/-- Rust `f32::round()` (half away from zero), on the idealised rationals. -/
def ratRound (q : Rat) : Int := if q < 0 then -(⌊-q + 1/2⌋) else ⌊q + 1/2⌋

/-- The tag-scanning loop of `extract_rating` (metadata.rs 98-108): the last
0x4746 (Rating) field and the last 0x4749 (RatingPercent) field win. -/
def ratingAccum (acc : Option Int × Option Int) (f : Nat × ExifValue) :
    Option Int × Option Int :=
  if f.1 = 0x4746 then (parse_numeric f.2, acc.2)
  else if f.1 = 0x4749 then (acc.1, parse_numeric f.2)
  else acc

def ratingScan (fields : List (Nat × ExifValue)) : Option Int × Option Int :=
  fields.foldl ratingAccum (none, none)

/-- `extract_rating` (metadata.rs 91-120): the numeric Rating tag clamped to
[0,5]; else RatingPercent converted by round(percent/20) and clamped. -/
def extract_rating (fields : List (Nat × ExifValue)) : Option Int :=
  match (ratingScan fields).1 with
  | some v => some (clampI v 0 5)
  | none =>
    match (ratingScan fields).2 with
    | some p => some (clampI (ratRound ((p : Rat) / 20)) 0 5)
    | none => none

/-- Index of the first occurrence of `pat` in `s` (Rust `str::find`). -/
def findSub (pat : List Char) : List Char → Option Nat
  | [] => if pat = [] then some 0 else none
  | c :: rest =>
    if pat.isPrefixOf (c :: rest) then some 0
    else (findSub pat rest).map (fun n => n + 1)

/-- Rust `str::parse::<i32>`: optional sign, one or more ASCII digits, value
within the i32 range. -/
def digitsVal : List Char → Option Nat
  | [] => none
  | [c] => if 48 ≤ c.toNat ∧ c.toNat ≤ 57 then some (c.toNat - 48) else none
  | c :: rest =>
    if 48 ≤ c.toNat ∧ c.toNat ≤ 57 then
      (digitsVal rest).map (fun n => (c.toNat - 48) * 10 ^ rest.length + n)
    else none

def parseI32 (s : List Char) : Option Int :=
  match s with
  | '+' :: rest =>
    (digitsVal rest).bind (fun n => if n ≤ 2147483647 then some (n : Int) else none)
  | '-' :: rest =>
    (digitsVal rest).bind (fun n => if n ≤ 2147483648 then some (-(n : Int)) else none)
  | _ =>
    (digitsVal s).bind (fun n => if n ≤ 2147483647 then some (n : Int) else none)

/-- Rust `str::trim` on a character list (ASCII whitespace suffices for the
data in scope). -/
def trimChars (s : List Char) : List Char :=
  ((s.dropWhile Char.isWhitespace).reverse.dropWhile Char.isWhitespace).reverse

/-- `parse_xmp_rating` (metadata.rs 224-253): first try the
`xmp:Rating="N"` / `xmp:Rating='N'` attribute form, then the
`<xmp:Rating>N</xmp:Rating>` element form; values clamp to [0,5]. -/
def parse_xmp_rating (xmp : String) : Option Int :=
  let attr :=
    match findSub ("xmp:Rating".data) xmp.data with
    | some index =>
      let tail := xmp.data.drop (index + 10)
      match findSub ['='] tail with
      | some eq =>
        let after := (tail.drop (eq + 1)).dropWhile Char.isWhitespace
        match after with
        | [] => none
        | quote :: rest =>
          if quote.toNat = 39 ∨ quote = '"' then
            match findSub [quote] rest with
            | some endQ =>
              match parseI32 (trimChars (rest.take endQ)) with
              | some v => some (clampI v 0 5)
              | none => none
            | none => none
          else none
      | none => none
    | none => none
  match attr with
  | some v => some v
  | none =>
    match findSub ("<xmp:Rating>".data) xmp.data with
    | some openIdx =>
      let tail := xmp.data.drop (openIdx + 12)
      match findSub ("</xmp:Rating>".data) tail with
      | some closeIdx =>
        match parseI32 (trimChars (tail.take closeIdx)) with
        | some v => some (clampI v 0 5)
        | none => none
      | none => none
    | none => none

/-- `extract_xmp_rating_from_bytes` (metadata.rs 210-222): slice out the
`<x:xmpmeta ... </x:xmpmeta>` packet and parse it (the bytes are modelled as
the string `from_utf8_lossy` produces). -/
def extract_xmp_rating_from_bytes (data : String) : Option Int :=
  match findSub ("<x:xmpmeta".data) data.data,
        findSub ("</x:xmpmeta>".data) data.data with
  | some s, some e =>
    if s < e then
      parse_xmp_rating (String.mk ((data.data.drop s).take (e + 12 - s)))
    else none
  | _, _ => none

/-- Inputs of `read_metadata` relevant to rating resolution: the parsed EXIF
fields (`none` when the container is unreadable), the file's own bytes, and
the sidecar `.xmp` bytes (`none` when the sidecar does not exist or cannot
be read — `.ok().flatten()` folds read errors into `None`). -/
structure RawFileInput where
  exifFields : Option (List (Nat × ExifValue))
  contents : String
  sidecar : Option String
deriving DecidableEq

/-- The rating fallback chain of `read_metadata` (metadata.rs 29-47):
EXIF rating tags, else embedded XMP, else sidecar XMP. -/
def readMetadataCameraRating (f : RawFileInput) : Option Int :=
  let fromExif :=
    match f.exifFields with
    | some fs => extract_rating fs
    | none => none
  match fromExif with
  | some r => some r
  | none =>
    match extract_xmp_rating_from_bytes f.contents with
    | some r => some r
    | none =>
      match f.sidecar with
      | some sc => extract_xmp_rating_from_bytes sc
      | none => none

/-! ## GPS conversion (metadata.rs) -/

/-- `rational_to_f64` (metadata.rs 189-194): a zero denominator yields 0.0. -/
def rational_to_f64 (r : Nat × Nat) : Rat :=
  if r.2 = 0 then 0 else (r.1 : Rat) / (r.2 : Rat)

/-- `gps_value` (metadata.rs 173-187): a degree/minute/second rational triple
to decimal degrees (the `v.len() >= 3` guard with indexing 0..2 is the
three-cons pattern). -/
def gps_value : ExifValue → Option Rat
  | .rationalV (d :: m :: s :: _) =>
    some (rational_to_f64 d + rational_to_f64 m / 60 + rational_to_f64 s / 3600)
  | _ => none

/-- Rust `dir.trim().starts_with(c)` (metadata.rs 161,166), modelled on the
character list (`trimChars` is `str::trim`). -/
def refStartsWith (ref : String) (c : Char) : Bool :=
  match trimChars ref.data with
  | [] => false
  | c2 :: _ => c2 == c

/-- The four GPS fields `extract_gps` reads; the reference fields are
modelled by their display strings. -/
structure GpsInput where
  latitude : Option ExifValue
  latitudeRef : Option String
  longitude : Option ExifValue
  longitudeRef : Option String
deriving DecidableEq

/-- `extract_gps` (metadata.rs 148-171): all four fields must be present;
the latitude is negated when the trimmed reference starts with 'S', the
longitude when it starts with 'W'. -/
def extract_gps (g : GpsInput) : Option (Rat × Rat) :=
  match g.latitude, g.latitudeRef, g.longitude, g.longitudeRef with
  | some lat, some latRef, some lon, some lonRef =>
    match gps_value lat, gps_value lon with
    | some latValue, some lonValue =>
      let latFinal := if refStartsWith latRef 'S' then -latValue else latValue
      let lonFinal := if refStartsWith lonRef 'W' then -lonValue else lonValue
      some (latFinal, lonFinal)
    | _, _ => none
  | _, _, _, _ => none

/-! ## Prefix operations (db.rs) and SQLite LIKE -/

/-- SQLite's ASCII case folding (`A`-`Z` to lower case), applied by `LIKE`. -/
def foldAscii (c : Char) : Char :=
  if 65 ≤ c.toNat ∧ c.toNat ≤ 90 then Char.ofNat (c.toNat + 32) else c

/-- SQLite `LIKE` pattern matching: `%` matches any sequence, `_` any single
character, other characters compare ASCII-case-insensitively. Fuel-indexed;
each step shortens pattern+text, so `sqlLike` passes enough fuel. -/
def likeMatchF : Nat → List Char → List Char → Bool
  | 0, _, _ => false
  | _ + 1, [], [] => true
  | _ + 1, [], _ :: _ => false
  | fuel + 1, p :: ps, s =>
    if p = '%' then
      likeMatchF fuel ps s ||
        (match s with
         | [] => false
         | _ :: s2 => likeMatchF fuel (p :: ps) s2)
    else if p = '_' then
      match s with
      | [] => false
      | _ :: s2 => likeMatchF fuel ps s2
    else
      match s with
      | [] => false
      | c :: s2 => foldAscii p == foldAscii c && likeMatchF fuel ps s2

def sqlLike (pat text : String) : Bool :=
  likeMatchF (pat.data.length + text.data.length + 1) pat.data text.data

/-- Rust `str::trim_matches('/')`. -/
def trimSlashes (s : String) : String :=
  String.mk (((s.data.dropWhile (fun c => c == '/')).reverse.dropWhile
    (fun c => c == '/')).reverse)

/-- `delete_meta_prefix` (db.rs 145-154):
`DELETE FROM files WHERE path = ? OR path LIKE ?` with the trimmed prefix
and the pattern `prefix/%`. -/
def delete_meta_under (db : List FileRow) (p : String) : List FileRow :=
  let q := trimSlashes p
  db.filter (fun r => !(r.path == q || sqlLike (q ++ "/%") r.path))

/-- `move_meta_prefix` (db.rs 165-188):
`UPDATE files SET path = ? || substr(path, ?) WHERE path LIKE ?` with
target prefix `to/` (or empty), 1-based start index `from.len + 2` (drop the
`from/` prefix) and pattern `from/%`. Models the successful bulk UPDATE (on
a path-uniqueness violation SQLite would fail the whole statement). -/
def move_meta_under (db : List FileRow) (fromP toP : String) : List FileRow :=
  let f := trimSlashes fromP
  let t := trimSlashes toP
  let target := if t = "" then "" else t ++ "/"
  db.map (fun r =>
    if sqlLike (f ++ "/%") r.path then
      { r with path := target ++ String.mk (r.path.data.drop (f.data.length + 1)) }
    else r)

/-- Case-insensitive (ASCII) list prefix, the directory-boundary test that
`path LIKE 'prefix/%'` amounts to for wildcard-free prefixes. -/
def ciPrefix (p t : List Char) : Bool :=
  (p.map foldAscii).isPrefixOf (t.map foldAscii)

/-! ## Preview generator (metadata.rs) -/

/-- The inner scan of `find_largest_jpeg` (metadata.rs 262-273): from
position `j` (the list is `data.drop j`), the end index just past the first
`FF D9` marker. -/
def findEndScan : List Nat → Nat → Option Nat
  | b1 :: b2 :: rest, j =>
    if b1 = 255 && b2 = 217 then some (j + 2) else findEndScan (b2 :: rest) (j + 1)
  | _, _ => none

def find_end_from (data : List Nat) (i : Nat) : Option Nat :=
  findEndScan (data.drop i) i

def bestSize : Option (Nat × Nat) → Nat
  | some (s, e) => e - s
  | none => 0

/-- The outer loop of `find_largest_jpeg` (metadata.rs 255-279): at an
`FF D8` marker, scan for the matching `FF D9`, keep the candidate if it
beats the best so far, and resume just past it. Fuel-indexed (the scan
position strictly increases, so `data.length + 1` steps suffice). -/
def findLargestJpegAux : List Nat → Nat → Nat → Option (Nat × Nat) → Option (Nat × Nat)
  | _, 0, _, best => best
  | data, fuel + 1, i, best =>
    if i + 1 < data.length then
      if data[i]? == some 255 && data[i + 1]? == some 216 then
        match find_end_from data (i + 2) with
        | some e =>
          findLargestJpegAux data fuel e
            (if bestSize best < e - i then some (i, e) else best)
        | none => best
      else findLargestJpegAux data fuel (i + 1) best
    else best

def find_largest_jpeg (data : List Nat) : Option (Nat × Nat) :=
  findLargestJpegAux data (data.length + 1) 0 none

/-- The scan-and-write tail of `ensure_preview` (metadata.rs 80-88), after a
preview-cache miss: the boolean result and the bytes written (if any). -/
def ensure_preview (data : List Nat) : Bool × Option (List Nat) :=
  match find_largest_jpeg data with
  | some (s, e) =>
    if s < e then (true, some ((data.drop s).take (e - s))) else (false, none)
  | none => (false, none)

/-- An `FF D8` start-of-image marker at index `s`. -/
def isStartB (data : List Nat) (s : Nat) : Prop :=
  data[s]? = some 255 ∧ data[s + 1]? = some 216

/-- An `FF D9` end-of-image marker at index `j`. -/
def isEndB (data : List Nat) (j : Nat) : Prop :=
  data[j]? = some 255 ∧ data[j + 1]? = some 217

/-- The buffer contains a valid JPEG marker pair: a start marker and an end
marker strictly after it. -/
def hasPair (data : List Nat) : Prop :=
  ∃ s j, isStartB data s ∧ isEndB data j ∧ s + 2 ≤ j ∧ j + 1 < data.length

/-! ## Helper lemmas: JSON round trip -/

theorem parseStr_generic (c : Char) (l : List Char) (h1 : c ≠ '"') (h2 : c ≠ '\\') :
    parseStr (c :: l)
      = if c.toNat < 32 then none
        else (parseStr l).map (fun p => (c :: p.1, p.2)) := by
  rw [parseStr.eq_def]
  split <;> simp_all

theorem parseStr_esc2 (e c : Char) (he : unescape e = some c) (l : List Char) :
    parseStr ('\\' :: e :: l) = (parseStr l).map (fun p => (c :: p.1, p.2)) := by
  by_cases hq : e = '"'
  · subst hq; simp [unescape] at he; subst he; rfl
  by_cases hb : e = '\\'
  · subst hb; simp [unescape] at he; subst he; rfl
  by_cases hs : e = '/'
  · subst hs; simp [unescape] at he; subst he; rfl
  by_cases h1 : e = 'b'
  · subst h1; simp [unescape] at he; subst he; rfl
  by_cases h2 : e = 'f'
  · subst h2; simp [unescape] at he; subst he; rfl
  by_cases h3 : e = 'n'
  · subst h3; simp [unescape] at he; subst he; rfl
  by_cases h4 : e = 'r'
  · subst h4; simp [unescape] at he; subst he; rfl
  by_cases h5 : e = 't'
  · subst h5; simp [unescape] at he; subst he; rfl
  · simp [unescape, hq, hb, hs, h1, h2, h3, h4, h5] at he

theorem parseStr_u00 (m : Nat) (hm : m < 32) (l : List Char) :
    parseStr
        ('\\' :: 'u' :: '0' :: '0' :: hexDigitChar (m / 16) :: hexDigitChar (m % 16) :: l)
      = (parseStr l).map (fun p => (Char.ofNat m :: p.1, p.2)) := by
  interval_cases m <;> rfl

theorem parseStr_escBody (s : List Char) (r : List Char) :
    parseStr (escBody s ++ ('"' :: r)) = some (s, r) := by
  induction s with
  | nil => rfl
  | cons c s ih =>
    have hE : escBody (c :: s) ++ ('"' :: r) = escChar c ++ (escBody s ++ ('"' :: r)) := by
      simp [escBody]
    rw [hE]
    by_cases h1 : c = '"'
    · subst h1
      rw [show escChar '"' ++ (escBody s ++ '"' :: r)
          = '\\' :: '"' :: (escBody s ++ '"' :: r) from rfl,
        parseStr_esc2 '"' '"' rfl, ih]
      rfl
    by_cases h2 : c = '\\'
    · subst h2
      rw [show escChar '\\' ++ (escBody s ++ '"' :: r)
          = '\\' :: '\\' :: (escBody s ++ '"' :: r) from rfl,
        parseStr_esc2 '\\' '\\' rfl, ih]
      rfl
    by_cases h3 : c.toNat = 8
    · have hesc : escChar c = ['\\', 'b'] := by simp [escChar, h1, h2, h3]
      rw [hesc, show (['\\', 'b'] : List Char) ++ (escBody s ++ '"' :: r)
          = '\\' :: 'b' :: (escBody s ++ '"' :: r) from rfl,
        parseStr_esc2 'b' (Char.ofNat 8) rfl, ih]
      have hc : Char.ofNat 8 = c := by rw [← h3, Char.ofNat_toNat]
      rw [hc]
      rfl
    by_cases h4 : c.toNat = 9
    · have hesc : escChar c = ['\\', 't'] := by simp [escChar, h1, h2, h3, h4]
      rw [hesc, show (['\\', 't'] : List Char) ++ (escBody s ++ '"' :: r)
          = '\\' :: 't' :: (escBody s ++ '"' :: r) from rfl,
        parseStr_esc2 't' (Char.ofNat 9) rfl, ih]
      have hc : Char.ofNat 9 = c := by rw [← h4, Char.ofNat_toNat]
      rw [hc]
      rfl
    by_cases h5 : c.toNat = 10
    · have hesc : escChar c = ['\\', 'n'] := by simp [escChar, h1, h2, h3, h4, h5]
      rw [hesc, show (['\\', 'n'] : List Char) ++ (escBody s ++ '"' :: r)
          = '\\' :: 'n' :: (escBody s ++ '"' :: r) from rfl,
        parseStr_esc2 'n' (Char.ofNat 10) rfl, ih]
      have hc : Char.ofNat 10 = c := by rw [← h5, Char.ofNat_toNat]
      rw [hc]
      rfl
    by_cases h6 : c.toNat = 12
    · have hesc : escChar c = ['\\', 'f'] := by simp [escChar, h1, h2, h3, h4, h5, h6]
      rw [hesc, show (['\\', 'f'] : List Char) ++ (escBody s ++ '"' :: r)
          = '\\' :: 'f' :: (escBody s ++ '"' :: r) from rfl,
        parseStr_esc2 'f' (Char.ofNat 12) rfl, ih]
      have hc : Char.ofNat 12 = c := by rw [← h6, Char.ofNat_toNat]
      rw [hc]
      rfl
    by_cases h7 : c.toNat = 13
    · have hesc : escChar c = ['\\', 'r'] := by simp [escChar, h1, h2, h3, h4, h5, h6, h7]
      rw [hesc, show (['\\', 'r'] : List Char) ++ (escBody s ++ '"' :: r)
          = '\\' :: 'r' :: (escBody s ++ '"' :: r) from rfl,
        parseStr_esc2 'r' (Char.ofNat 13) rfl, ih]
      have hc : Char.ofNat 13 = c := by rw [← h7, Char.ofNat_toNat]
      rw [hc]
      rfl
    by_cases h8 : c.toNat < 32
    · have hesc : escChar c
          = ['\\', 'u', '0', '0', hexDigitChar (c.toNat / 16), hexDigitChar (c.toNat % 16)] := by
        simp [escChar, h1, h2, h3, h4, h5, h6, h7, h8]
      rw [hesc]
      simp only [List.cons_append, List.nil_append]
      rw [parseStr_u00 c.toNat h8, ih, Char.ofNat_toNat]
      rfl
    · have hesc : escChar c = [c] := by simp [escChar, h1, h2, h3, h4, h5, h6, h7, h8]
      rw [hesc, show [c] ++ (escBody s ++ '"' :: r) = c :: (escBody s ++ '"' :: r) from rfl,
        parseStr_generic c _ h1 h2, if_neg h8, ih]
      rfl

theorem skipWs_cons (c : Char) (l : List Char) (h : isJsonWs c = false) :
    skipWs (c :: l) = c :: l := by
  simp [skipWs, List.dropWhile_cons, h]

theorem encodeStrChars_length (t : String) :
    (encodeStrChars t).length = (escBody t.data).length + 2 := by
  simp [encodeStrChars]

theorem parseItems_enc :
    ∀ (ts : List String) (r : List Char) (fuel : Nat), ts ≠ [] →
      (encodeItems ts ++ (']' :: r)).length ≤ fuel →
      parseItems fuel (encodeItems ts ++ (']' :: r)) = some (ts, r) := by
  intro ts
  induction ts with
  | nil => intro r fuel h; exact absurd rfl h
  | cons t ts ih =>
    intro r fuel _ hfuel
    cases ts with
    | nil =>
      have hshape : encodeItems [t] ++ (']' :: r)
          = '"' :: (escBody t.data ++ ('"' :: (']' :: r))) := by
        simp [encodeItems, encodeStrChars]
      have hlen : 0 < (encodeItems [t] ++ (']' :: r)).length := by
        rw [hshape]; simp
      obtain ⟨f, rfl⟩ : ∃ f, fuel = f + 1 := ⟨fuel - 1, by omega⟩
      rw [hshape]
      show parseItems (f + 1) _ = _
      simp only [parseItems, skipWs_cons '"' _ rfl, parseStr_escBody,
        skipWs_cons ']' r rfl]
    | cons t2 ts2 =>
      have hshape : encodeItems (t :: t2 :: ts2) ++ (']' :: r)
          = '"' :: (escBody t.data
              ++ ('"' :: (',' :: (encodeItems (t2 :: ts2) ++ (']' :: r))))) := by
        simp [encodeItems, encodeStrChars]
      have hlen : 0 < (encodeItems (t :: t2 :: ts2) ++ (']' :: r)).length := by
        rw [hshape]; simp
      obtain ⟨f, rfl⟩ : ∃ f, fuel = f + 1 := ⟨fuel - 1, by omega⟩
      have hbound : (encodeItems (t2 :: ts2) ++ (']' :: r)).length ≤ f := by
        have := congrArg List.length hshape
        simp only [List.length_append, List.length_cons] at this hfuel ⊢
        omega
      rw [hshape]
      show parseItems (f + 1) _ = _
      simp only [parseItems, skipWs_cons '"' _ rfl, parseStr_escBody,
        skipWs_cons ',' _ rfl]
      rw [ih r f (by simp) hbound]
      rw [show String.mk t.data = t from rfl]
      rfl

theorem parseVecString_shape (input : String) (l : List Char)
    (h : input.data = '[' :: ('"' :: l)) :
    parseVecString input
      = match parseItems (('"' :: l).length + 1) ('"' :: l) with
        | some (l2, r) => if skipWs r = [] then some l2 else none
        | none => none := by
  unfold parseVecString
  rw [h]
  rfl

theorem parse_encode_tags (ts : List String) : parseVecString (encodeTags ts) = some ts := by
  cases ts with
  | nil => rfl
  | cons t ts =>
    have hhead : ∃ l, encodeItems (t :: ts) ++ (']' :: []) = '"' :: l := by
      cases ts with
      | nil =>
        exact ⟨escBody t.data ++ ('"' :: (']' :: [])), by simp [encodeItems, encodeStrChars]⟩
      | cons t2 ts2 =>
        exact ⟨escBody t.data
            ++ ('"' :: (',' :: (encodeItems (t2 :: ts2) ++ (']' :: [])))),
          by simp [encodeItems, encodeStrChars]⟩
    obtain ⟨l, hl⟩ := hhead
    have hdata : (encodeTags (t :: ts)).data = '[' :: ('"' :: l) := by
      rw [show (encodeTags (t :: ts)).data
          = '[' :: (encodeItems (t :: ts) ++ (']' :: [])) from rfl, hl]
    rw [parseVecString_shape _ l hdata, ← hl]
    rw [parseItems_enc (t :: ts) [] _ (by simp) (by omega)]
    rfl

/-! ## Helper lemmas: association-list table -/

theorem dbGet_map_update (db : List FileRow) (p : String) (g : FileRow → FileRow)
    (hg : ∀ r, (g r).path = r.path) :
    dbGet (db.map (fun r => if r.path == p then g r else r)) p = (dbGet db p).map g := by
  induction db with
  | nil => rfl
  | cons r db ih =>
    by_cases h : r.path = p
    · simp [dbGet, List.find?_cons, h, hg]
    · simp only [List.map_cons, dbGet, List.find?_cons] at *
      rw [if_neg (by simp [h])]
      have hr : (r.path == p) = false := by simp [h]
      simp only [hr, cond_false]
      exact ih

theorem dbGet_append_none (db : List FileRow) (row : FileRow) (p : String)
    (h : dbGet db p = none) :
    dbGet (db ++ [row]) p = if row.path == p then some row else none := by
  induction db with
  | nil =>
    simp only [dbGet, List.nil_append, List.find?]
    cases hr : (row.path == p) <;> simp [hr]
  | cons r db ih =>
    have hr : (r.path == p) = false := by
      by_contra hc
      simp only [dbGet, List.find?_cons, Bool.not_eq_false] at h hc
      simp [hc] at h
    simp only [dbGet, List.cons_append, List.find?_cons, hr, cond_false] at h ⊢
    exact ih h

theorem dbGet_path (db : List FileRow) (p : String) (r : FileRow)
    (h : dbGet db p = some r) : r.path = p := by
  have := List.find?_some h
  simpa using this

theorem dbUpsert_existing (db : List FileRow) (row : FileRow) (g : FileRow → FileRow)
    (r0 : FileRow) (h : dbGet db row.path = some r0) (hg : ∀ r, (g r).path = r.path) :
    dbGet (dbUpsert db row g) row.path = some (g r0) := by
  unfold dbUpsert
  rw [if_pos (by simp [h]), dbGet_map_update db row.path g hg, h]
  rfl

theorem dbUpsert_new (db : List FileRow) (row : FileRow) (g : FileRow → FileRow)
    (h : dbGet db row.path = none) :
    dbGet (dbUpsert db row g) row.path = some row := by
  unfold dbUpsert
  rw [if_neg (by simp [h]), dbGet_append_none db row row.path h]
  simp

/-! ## Claims -/

/-- Claim C1: `upsert_user_rating` on an existing row updates only
user_rating and the freshness token (file_size, last_modified), leaving the
stored tags (and every other column) unchanged; `upsert_tags` symmetrically
updates only tags and the freshness token, leaving user_rating unchanged;
and a rating-only (resp. tags-only) upsert that creates a brand-new row
leaves the sibling field reading as empty tags (resp. absent rating). -/
theorem C1_partial_upsert_frame :
    ∀ (db : List FileRow) (path : String) (rating : Option Int) (tags : List String)
      (size mtime : Int),
      (∀ row, dbGet db path = some row →
        dbGet (upsert_user_rating db path rating size mtime) path
          = some { row with user_rating := rating, file_size := size,
                            last_modified := mtime }
        ∧ dbGet (upsert_tags db path tags size mtime) path
          = some { row with tags := some (encodeTags tags), file_size := size,
                            last_modified := mtime })
      ∧ (dbGet db path = none →
        get_file_meta (upsert_user_rating db path rating size mtime) path
          = some ⟨path, none, rating, [], none, none, none, none, size, mtime⟩
        ∧ get_file_meta (upsert_tags db path tags size mtime) path
          = some ⟨path, none, none, tags, none, none, none, none, size, mtime⟩) := by
  intro db path rating tags size mtime
  constructor
  · intro row h
    constructor
    · exact dbUpsert_existing db
        ⟨path, none, rating, some "[]", none, none, none, none, size, mtime⟩
        (fun r => { r with user_rating := rating, file_size := size,
                           last_modified := mtime })
        row h (fun r => rfl)
    · exact dbUpsert_existing db
        ⟨path, none, none, some (encodeTags tags), none, none, none, none, size, mtime⟩
        (fun r => { r with tags := some (encodeTags tags), file_size := size,
                           last_modified := mtime })
        row h (fun r => rfl)
  · intro h
    constructor
    · have h2 := dbUpsert_new db
        ⟨path, none, rating, some "[]", none, none, none, none, size, mtime⟩
        (fun r => { r with user_rating := rating, file_size := size,
                           last_modified := mtime })
        h
      show (dbGet (upsert_user_rating db path rating size mtime) path).map row_to_meta = _
      rw [show dbGet (upsert_user_rating db path rating size mtime) path
          = some (⟨path, none, rating, some "[]", none, none, none, none, size, mtime⟩
              : FileRow) from h2]
      rfl
    · have h2 := dbUpsert_new db
        ⟨path, none, none, some (encodeTags tags), none, none, none, none, size, mtime⟩
        (fun r => { r with tags := some (encodeTags tags), file_size := size,
                           last_modified := mtime })
        h
      show (dbGet (upsert_tags db path tags size mtime) path).map row_to_meta = _
      rw [show dbGet (upsert_tags db path tags size mtime) path
          = some (⟨path, none, none, some (encodeTags tags), none, none, none, none,
              size, mtime⟩ : FileRow) from h2]
      simp [row_to_meta, parse_encode_tags]

theorem C1_witness :
    dbGet [⟨"p", some 1, some 2, some "old", none, none, some "t", some 3, 5, 6⟩] "p"
        = some ⟨"p", some 1, some 2, some "old", none, none, some "t", some 3, 5, 6⟩
    ∧ dbGet (upsert_user_rating
          [⟨"p", some 1, some 2, some "old", none, none, some "t", some 3, 5, 6⟩]
          "p" (some 4) 7 8) "p"
        = some ⟨"p", some 1, some 4, some "old", none, none, some "t", some 3, 7, 8⟩
    ∧ dbGet (upsert_tags
          [⟨"p", some 1, some 2, some "old", none, none, some "t", some 3, 5, 6⟩]
          "p" ["x"] 7 8) "p"
        = some ⟨"p", some 1, some 2, some (encodeTags ["x"]), none, none, some "t",
            some 3, 7, 8⟩
    ∧ get_file_meta (upsert_user_rating [] "q" (some 4) 7 8) "q"
        = some ⟨"q", none, some 4, [], none, none, none, none, 7, 8⟩
    ∧ get_file_meta (upsert_tags [] "q" ["a", "b"] 7 8) "q"
        = some ⟨"q", none, none, ["a", "b"], none, none, none, none, 7, 8⟩ := by
  refine ⟨rfl, ?_, ?_, ?_, ?_⟩
  · exact ((C1_partial_upsert_frame
      [⟨"p", some 1, some 2, some "old", none, none, some "t", some 3, 5, 6⟩]
      "p" (some 4) ["x"] 7 8).1
      ⟨"p", some 1, some 2, some "old", none, none, some "t", some 3, 5, 6⟩ rfl).1
  · exact ((C1_partial_upsert_frame
      [⟨"p", some 1, some 2, some "old", none, none, some "t", some 3, 5, 6⟩]
      "p" (some 4) ["x"] 7 8).1
      ⟨"p", some 1, some 2, some "old", none, none, some "t", some 3, 5, 6⟩ rfl).2
  · exact ((C1_partial_upsert_frame [] "q" (some 4) ["a", "b"] 7 8).2 rfl).1
  · exact ((C1_partial_upsert_frame [] "q" (some 4) ["a", "b"] 7 8).2 rfl).2

/-- Claim C8: a full upsert followed by a get returns the record with the
tags list preserved exactly (the JSON serialization round-trips), and a row
whose stored tags value is absent or unparseable reads as the empty tag list
rather than an error. -/
theorem C8_full_upsert_roundtrip :
    (∀ (db : List FileRow) (m : FileMeta),
        get_file_meta (upsert_file_meta db m) m.path = some m)
    ∧ (∀ r : FileRow, r.tags = none → (row_to_meta r).tags = [])
    ∧ (∀ (r : FileRow) (raw : String), r.tags = some raw →
        parseVecString raw = none → (row_to_meta r).tags = []) := by
  refine ⟨?_, ?_, ?_⟩
  · intro db m
    cases h : dbGet db m.path with
    | none =>
      have h2 := dbUpsert_new db
        ⟨m.path, m.camera_rating, m.user_rating, some (encodeTags m.tags), m.gps_lat,
          m.gps_lon, m.taken_at, m.orientation, m.file_size, m.last_modified⟩
        (fun r =>
          { r with
            camera_rating := m.camera_rating
            user_rating := m.user_rating
            tags := some (encodeTags m.tags)
            gps_lat := m.gps_lat
            gps_lon := m.gps_lon
            taken_at := m.taken_at
            file_size := m.file_size
            last_modified := m.last_modified
            orientation := m.orientation })
        h
      show (dbGet (upsert_file_meta db m) m.path).map row_to_meta = some m
      rw [show dbGet (upsert_file_meta db m) m.path
          = some (⟨m.path, m.camera_rating, m.user_rating, some (encodeTags m.tags),
              m.gps_lat, m.gps_lon, m.taken_at, m.orientation, m.file_size,
              m.last_modified⟩ : FileRow) from h2]
      simp [row_to_meta, parse_encode_tags]
    | some row =>
      have h2 := dbUpsert_existing db
        ⟨m.path, m.camera_rating, m.user_rating, some (encodeTags m.tags), m.gps_lat,
          m.gps_lon, m.taken_at, m.orientation, m.file_size, m.last_modified⟩
        (fun r =>
          { r with
            camera_rating := m.camera_rating
            user_rating := m.user_rating
            tags := some (encodeTags m.tags)
            gps_lat := m.gps_lat
            gps_lon := m.gps_lon
            taken_at := m.taken_at
            file_size := m.file_size
            last_modified := m.last_modified
            orientation := m.orientation })
        row h (fun r => rfl)
      show (dbGet (upsert_file_meta db m) m.path).map row_to_meta = some m
      rw [show dbGet (upsert_file_meta db m) m.path
          = some { row with
              camera_rating := m.camera_rating
              user_rating := m.user_rating
              tags := some (encodeTags m.tags)
              gps_lat := m.gps_lat
              gps_lon := m.gps_lon
              taken_at := m.taken_at
              file_size := m.file_size
              last_modified := m.last_modified
              orientation := m.orientation } from h2]
      simp [row_to_meta, parse_encode_tags, dbGet_path db m.path row h]
  · intro r h
    simp [row_to_meta, h]
  · intro r raw h hp
    simp [row_to_meta, h, hp]

theorem C8_witness :
    get_file_meta
        (upsert_file_meta []
          ⟨"p", none, some 1, ["A", "b"], none, none, none, some 1, 2, 3⟩) "p"
      = some ⟨"p", none, some 1, ["A", "b"], none, none, none, some 1, 2, 3⟩
    ∧ (row_to_meta ⟨"q", none, none, none, none, none, none, none, 0, 0⟩).tags = []
    ∧ parseVecString "not json" = none
    ∧ (row_to_meta ⟨"q", none, none, some "not json", none, none, none, none, 0, 0⟩).tags
        = [] := by
  refine ⟨?_, ?_, ?_, ?_⟩
  · exact C8_full_upsert_roundtrip.1 []
      ⟨"p", none, some 1, ["A", "b"], none, none, none, some 1, 2, 3⟩
  · exact C8_full_upsert_roundtrip.2.1 _ rfl
  · decide
  · exact C8_full_upsert_roundtrip.2.2 _ "not json" rfl (by decide)

/-- Claim C2: for a path with a cached record, the metadata read reports it
Fresh — returning the cached record verbatim without invoking the extractor —
iff the cached file_size equals the live size, the cached last_modified
equals the live mtime, and the stored orientation is present; when any of the
three fails, the next read re-extracts. The browse listing's advisory
needs_scan flag uses the same test. -/
theorem C2_freshness_iff :
    ∀ (m : FileMeta) (path : String) (size modified : Int) (ext : ExtractedMeta),
      m.path = path →
      (((file_metadata (some m) path size modified ext).ranExtractor = false
          ∧ (file_metadata (some m) path size modified ext).response = m
          ∧ (file_metadata (some m) path size modified ext).upserted = none)
        ↔ (m.file_size = size ∧ m.last_modified = modified ∧ m.orientation ≠ none))
      ∧ (¬(m.file_size = size ∧ m.last_modified = modified ∧ m.orientation ≠ none) →
          (file_metadata (some m) path size modified ext).ranExtractor = true)
      ∧ (browse_needs_scan (some m) size modified = false
        ↔ (m.file_size = size ∧ m.last_modified = modified ∧ m.orientation ≠ none)) := by
  intro m path size modified ext hpath
  have hiff : isFresh m size modified = true
      ↔ (m.file_size = size ∧ m.last_modified = modified ∧ m.orientation ≠ none) := by
    simp [isFresh, Option.isSome_iff_ne_none, and_assoc]
  constructor
  · constructor
    · intro hfr
      cases hf : isFresh m size modified with
      | true => exact hiff.mp hf
      | false =>
        exfalso
        have := hfr.1
        simp [file_metadata, hf] at this
    · intro hc
      have hf : isFresh m size modified = true := hiff.mpr hc
      refine ⟨by simp [file_metadata, hf], ?_, by simp [file_metadata, hf]⟩
      simp only [file_metadata, hf, if_true]
      obtain ⟨h1, h2, _⟩ := hc
      cases m
      simp_all
  constructor
  · intro hc
    have hf : isFresh m size modified = false := by
      cases hf : isFresh m size modified with
      | true => exact absurd (hiff.mp hf) hc
      | false => rfl
    simp [file_metadata, hf]
  · rw [← hiff]
    simp [browse_needs_scan]

theorem C2_witness :
    ((file_metadata
        (some ⟨"p", some 1, some 2, ["k"], none, none, none, some 1, 10, 20⟩)
        "p" 10 20 ⟨some 5, none, none, none, some 6⟩).ranExtractor = false
      ∧ (file_metadata
        (some ⟨"p", some 1, some 2, ["k"], none, none, none, some 1, 10, 20⟩)
        "p" 10 20 ⟨some 5, none, none, none, some 6⟩).response
          = ⟨"p", some 1, some 2, ["k"], none, none, none, some 1, 10, 20⟩)
    ∧ (file_metadata
        (some ⟨"p", some 1, some 2, ["k"], none, none, none, some 1, 11, 20⟩)
        "p" 10 20 ⟨some 5, none, none, none, some 6⟩).ranExtractor = true
    ∧ (file_metadata
        (some ⟨"p", some 1, some 2, ["k"], none, none, none, none, 10, 20⟩)
        "p" 10 20 ⟨some 5, none, none, none, some 6⟩).ranExtractor = true := by
  refine ⟨?_, ?_, ?_⟩
  · have h := ((C2_freshness_iff
      ⟨"p", some 1, some 2, ["k"], none, none, none, some 1, 10, 20⟩
      "p" 10 20 ⟨some 5, none, none, none, some 6⟩ rfl).1).mpr
      (by refine ⟨rfl, rfl, by decide⟩)
    exact ⟨h.1, h.2.1⟩
  · exact (C2_freshness_iff
      ⟨"p", some 1, some 2, ["k"], none, none, none, some 1, 11, 20⟩
      "p" 10 20 ⟨some 5, none, none, none, some 6⟩ rfl).2.1 (by decide)
  · exact (C2_freshness_iff
      ⟨"p", some 1, some 2, ["k"], none, none, none, none, 10, 20⟩
      "p" 10 20 ⟨some 5, none, none, none, some 6⟩ rfl).2.1 (by decide)

/-- Claim C3 (counterexample): the claim says the merged record's extracted
fields, orientation included, are exactly the extractor's output; but when
the extractor reports no orientation the code stores
`extracted.orientation.or(Some(0))`, i.e. `some 0`, not `none`
(main.rs 468). -/
theorem C3_counterexample :
    ((file_metadata
        (some ⟨"p", none, some 4, ["keep"], none, none, none, some 1, 100, 200⟩)
        "p" 101 200 ⟨some 2, none, none, some "t", none⟩).upserted.map
          (fun m => m.orientation)) = some (some 0)
    ∧ (⟨some 2, none, none, some "t", none⟩ : ExtractedMeta).orientation = none := by
  exact ⟨rfl, rfl⟩

/-- Claim C3 (amended): for every stale path with a prior cached record, the
read runs the extractor and upserts a merged record whose user_rating and
tags come from the prior record, whose camera_rating/gps/taken_at are exactly
the extractor's output, whose orientation is the extractor's output except
that an absent orientation is stored as 0 (the backfill default), and whose
freshness token is the live size and mtime; that merged record is what is
returned. -/
theorem C3_stale_merge :
    ∀ (m : FileMeta) (path : String) (size modified : Int) (ext : ExtractedMeta),
      isFresh m size modified = false →
      (file_metadata (some m) path size modified ext).ranExtractor = true
      ∧ (file_metadata (some m) path size modified ext).upserted
          = some (file_metadata (some m) path size modified ext).response
      ∧ (file_metadata (some m) path size modified ext).response
          = ⟨path, ext.camera_rating, m.user_rating, m.tags, ext.gps_lat, ext.gps_lon,
              ext.taken_at, ext.orientation.or (some 0), size, modified⟩
      ∧ (∀ v, ext.orientation = some v →
          (file_metadata (some m) path size modified ext).response.orientation
            = some v) := by
  intro m path size modified ext hf
  refine ⟨by simp [file_metadata, hf], by simp [file_metadata, hf],
    by simp [file_metadata, hf], ?_⟩
  intro v hv
  simp [file_metadata, hf, hv, Option.or]

theorem C3_witness :
    isFresh ⟨"p", none, some 4, ["keep"], none, none, none, some 1, 100, 200⟩ 101 200
        = false
    ∧ (file_metadata
        (some ⟨"p", none, some 4, ["keep"], none, none, none, some 1, 100, 200⟩)
        "p" 101 200 ⟨some 2, some 1, some 2, some "t", some 3⟩).upserted
      = some ⟨"p", some 2, some 4, ["keep"], some 1, some 2, some "t", some 3,
          101, 200⟩ := by
  refine ⟨by decide, ?_⟩
  have h := C3_stale_merge
    ⟨"p", none, some 4, ["keep"], none, none, none, some 1, 100, 200⟩
    "p" 101 200 ⟨some 2, some 1, some 2, some "t", some 3⟩ (by decide)
  rw [h.2.1, h.2.2.1]
  rfl

/-- Claim C4: rating extraction is an ordered first-hit-wins fallback with no
cross-source merge: a numeric rating tag (clamped to [0,5]) wins over
everything; else a rating-percent tag converted by round(percent/20) and
clamped; else an XMP Rating in the file's own bytes; else the sidecar.
Concrete instances: rating 3 with percent 80 yields 3; percent 60 alone
yields 3; embedded XMP Rating="5" alone yields 5; XMP 7 clamps to 5. -/
theorem C4_rating_fallback :
    (∀ (fields : List (Nat × ExifValue)) (v : Int),
        (ratingScan fields).1 = some v → extract_rating fields = some (clampI v 0 5))
    ∧ (∀ (fields : List (Nat × ExifValue)) (p : Int),
        (ratingScan fields).1 = none → (ratingScan fields).2 = some p →
        extract_rating fields = some (clampI (ratRound ((p : Rat) / 20)) 0 5))
    ∧ (∀ (f : RawFileInput) (fs : List (Nat × ExifValue)) (r : Int),
        f.exifFields = some fs → extract_rating fs = some r →
        readMetadataCameraRating f = some r)
    ∧ (∀ (f : RawFileInput) (fs : List (Nat × ExifValue)) (r : Int),
        f.exifFields = some fs → extract_rating fs = none →
        extract_xmp_rating_from_bytes f.contents = some r →
        readMetadataCameraRating f = some r)
    ∧ (∀ (f : RawFileInput) (fs : List (Nat × ExifValue)),
        f.exifFields = some fs → extract_rating fs = none →
        extract_xmp_rating_from_bytes f.contents = none →
        readMetadataCameraRating f
          = f.sidecar.bind (fun sc => extract_xmp_rating_from_bytes sc))
    ∧ extract_rating [(0x4746, .shortV [3]), (0x4749, .shortV [80])] = some 3
    ∧ extract_rating [(0x4749, .shortV [60])] = some 3
    ∧ readMetadataCameraRating
        ⟨some [], "<x:xmpmeta xmp:Rating=\"5\"></x:xmpmeta>", none⟩ = some 5
    ∧ readMetadataCameraRating
        ⟨some [], "<x:xmpmeta xmp:Rating=\"7\"></x:xmpmeta>", none⟩ = some 5 := by
  refine ⟨?_, ?_, ?_, ?_, ?_, ?_, ?_, ?_, ?_⟩
  · intro fields v h
    simp [extract_rating, h]
  · intro fields p h1 h2
    simp [extract_rating, h1, h2]
  · intro f fs r hf hr
    simp [readMetadataCameraRating, hf, hr]
  · intro f fs r hf hr hx
    simp [readMetadataCameraRating, hf, hr, hx]
  · intro f fs hf hr hx
    cases hs : f.sidecar <;> simp [readMetadataCameraRating, hf, hr, hx, hs]
  · decide
  · simp only [extract_rating, ratingScan, List.foldl_cons, List.foldl_nil, ratingAccum,
      parse_numeric]
    norm_num [ratRound, clampI]
  · decide
  · decide

theorem C4_witness :
    (ratingScan [(0x4746, .shortV [9])]).1 = some 9
    ∧ extract_rating [(0x4746, .shortV [9])] = some 5
    ∧ (ratingScan [(0x4749, .shortV [50])]).1 = none
    ∧ (ratingScan [(0x4749, .shortV [50])]).2 = some 50
    ∧ extract_rating [(0x4749, .shortV [50])] = some 3
    ∧ readMetadataCameraRating ⟨some [(0x4746, .shortV [2])], "", none⟩ = some 2
    ∧ readMetadataCameraRating
        ⟨some [], "", some "<x:xmpmeta xmp:Rating=\"4\"></x:xmpmeta>"⟩ = some 4 := by
  refine ⟨by decide, ?_, by decide, by decide, ?_, ?_, ?_⟩
  · exact C4_rating_fallback.1 [(0x4746, .shortV [9])] 9 (by decide)
  · have h := C4_rating_fallback.2.1 [(0x4749, .shortV [50])] 50 (by decide) (by decide)
    rw [h]
    norm_num [ratRound, clampI]
  · exact C4_rating_fallback.2.2.1 ⟨some [(0x4746, .shortV [2])], "", none⟩
      [(0x4746, .shortV [2])] 2 rfl (by decide)
  · have h := C4_rating_fallback.2.2.2.2.1
      ⟨some [], "", some "<x:xmpmeta xmp:Rating=\"4\"></x:xmpmeta>"⟩
      [] rfl (by decide) (by decide)
    rw [h]
    decide

/-- Claim C9: GPS extraction yields a pair only when all four of latitude,
latitude-reference, longitude and longitude-reference are present; each
coordinate is deg + min/60 + sec/3600 from its rational triple; the latitude
is negated exactly when the (trimmed) reference starts with 'S' and the
longitude exactly when it starts with 'W', so "N"/"E" leave the sign
unchanged. Includes the concrete sign instances for "N","S","E","W". -/
theorem C9_gps_extraction :
    (∀ g : GpsInput,
        (g.latitude = none ∨ g.latitudeRef = none ∨ g.longitude = none
          ∨ g.longitudeRef = none) → extract_gps g = none)
    ∧ (∀ (lat lon : ExifValue) (latRef lonRef : String) (lv lv2 : Rat),
        gps_value lat = some lv → gps_value lon = some lv2 →
        extract_gps ⟨some lat, some latRef, some lon, some lonRef⟩
          = some (if refStartsWith latRef 'S' then -lv else lv,
                  if refStartsWith lonRef 'W' then -lv2 else lv2))
    ∧ (∀ (d m s : Nat × Nat) (rest : List (Nat × Nat)),
        gps_value (.rationalV (d :: m :: s :: rest))
          = some (rational_to_f64 d + rational_to_f64 m / 60 + rational_to_f64 s / 3600))
    ∧ extract_gps ⟨some (.rationalV [(10, 1), (30, 1), (0, 1)]), some "S",
        some (.rationalV [(20, 1), (0, 1), (0, 1)]), some "E"⟩
      = some (-(21 / 2), 20)
    ∧ extract_gps ⟨some (.rationalV [(10, 1), (30, 1), (0, 1)]), some "N",
        some (.rationalV [(20, 1), (0, 1), (0, 1)]), some "W"⟩
      = some (21 / 2, -20) := by
  refine ⟨?_, ?_, ?_, ?_, ?_⟩
  · intro g h
    rcases g with ⟨a, b, c, d⟩
    rcases a with _ | a <;> rcases b with _ | b <;> rcases c with _ | c <;>
      rcases d with _ | d <;> simp_all [extract_gps]
  · intro lat lon latRef lonRef lv lv2 h1 h2
    simp [extract_gps, h1, h2]
  · intro d m s rest
    rfl
  · show some (if refStartsWith "S" 'S'
        then -(rational_to_f64 (10, 1) + rational_to_f64 (30, 1) / 60
          + rational_to_f64 (0, 1) / 3600)
        else rational_to_f64 (10, 1) + rational_to_f64 (30, 1) / 60
          + rational_to_f64 (0, 1) / 3600,
        if refStartsWith "E" 'W'
        then -(rational_to_f64 (20, 1) + rational_to_f64 (0, 1) / 60
          + rational_to_f64 (0, 1) / 3600)
        else rational_to_f64 (20, 1) + rational_to_f64 (0, 1) / 60
          + rational_to_f64 (0, 1) / 3600)
      = some (-(21 / 2), 20)
    norm_num [show refStartsWith "S" 'S' = true from by decide,
      show refStartsWith "E" 'W' = false from by decide, rational_to_f64]
  · show some (if refStartsWith "N" 'S'
        then -(rational_to_f64 (10, 1) + rational_to_f64 (30, 1) / 60
          + rational_to_f64 (0, 1) / 3600)
        else rational_to_f64 (10, 1) + rational_to_f64 (30, 1) / 60
          + rational_to_f64 (0, 1) / 3600,
        if refStartsWith "W" 'W'
        then -(rational_to_f64 (20, 1) + rational_to_f64 (0, 1) / 60
          + rational_to_f64 (0, 1) / 3600)
        else rational_to_f64 (20, 1) + rational_to_f64 (0, 1) / 60
          + rational_to_f64 (0, 1) / 3600)
      = some (21 / 2, -20)
    norm_num [show refStartsWith "N" 'S' = false from by decide,
      show refStartsWith "W" 'W' = true from by decide, rational_to_f64]

theorem C9_witness :
    gps_value (.rationalV [(10, 1), (30, 1), (0, 1)]) = some (21 / 2)
    ∧ extract_gps ⟨some (.rationalV [(10, 1), (30, 1), (0, 1)]), none,
        some (.rationalV [(20, 1), (0, 1), (0, 1)]), some "E"⟩ = none
    ∧ extract_gps ⟨some (.rationalV [(10, 1), (30, 1), (0, 1)]), some " S 30",
        some (.rationalV [(20, 1), (0, 1), (0, 1)]), some "E"⟩
      = some (-(21 / 2), 20) := by
  have hlat : gps_value (.rationalV [(10, 1), (30, 1), (0, 1)]) = some (21 / 2) := by
    show some (rational_to_f64 (10, 1) + rational_to_f64 (30, 1) / 60
        + rational_to_f64 (0, 1) / 3600) = some (21 / 2)
    norm_num [rational_to_f64]
  have hlon : gps_value (.rationalV [(20, 1), (0, 1), (0, 1)]) = some 20 := by
    show some (rational_to_f64 (20, 1) + rational_to_f64 (0, 1) / 60
        + rational_to_f64 (0, 1) / 3600) = some 20
    norm_num [rational_to_f64]
  refine ⟨hlat, ?_, ?_⟩
  · exact C9_gps_extraction.1
      ⟨some (.rationalV [(10, 1), (30, 1), (0, 1)]), none,
        some (.rationalV [(20, 1), (0, 1), (0, 1)]), some "E"⟩
      (Or.inr (Or.inl rfl))
  · have h := C9_gps_extraction.2.1
      (.rationalV [(10, 1), (30, 1), (0, 1)]) (.rationalV [(20, 1), (0, 1), (0, 1)])
      " S 30" "E" (21 / 2) 20 hlat hlon
    rw [h]
    norm_num [show refStartsWith " S 30" 'S' = true from by decide,
      show refStartsWith "E" 'W' = false from by decide]

/-- Claim C10: the rational-to-decimal conversion is total: a zero
denominator maps to 0 instead of an error, so such a component contributes
zero while the other components of the triple still contribute normally. -/
theorem C10_zero_denominator :
    (∀ n : Nat, rational_to_f64 (n, 0) = 0)
    ∧ (∀ n d : Nat, d ≠ 0 → rational_to_f64 (n, d) = (n : Rat) / (d : Rat))
    ∧ (∀ (n : Nat) (m s : Nat × Nat) (rest : List (Nat × Nat)),
        gps_value (.rationalV ((n, 0) :: m :: s :: rest))
          = some (rational_to_f64 m / 60 + rational_to_f64 s / 3600))
    ∧ gps_value (.rationalV [(5, 0), (30, 1), (0, 1)]) = some (1 / 2) := by
  refine ⟨?_, ?_, ?_, ?_⟩
  · intro n
    simp [rational_to_f64]
  · intro n d hd
    simp [rational_to_f64, hd]
  · intro n m s rest
    show some (rational_to_f64 (n, 0) + rational_to_f64 m / 60 + rational_to_f64 s / 3600)
      = some (rational_to_f64 m / 60 + rational_to_f64 s / 3600)
    rw [show rational_to_f64 (n, 0) = 0 from by simp [rational_to_f64]]
    rw [zero_add]
  · show some (rational_to_f64 (5, 0) + rational_to_f64 (30, 1) / 60
        + rational_to_f64 (0, 1) / 3600) = some (1 / 2)
    norm_num [rational_to_f64]

theorem C10_witness :
    rational_to_f64 (7, 0) = 0
    ∧ rational_to_f64 (7, 2) = 7 / 2
    ∧ gps_value (.rationalV [(9, 0), (30, 1), (0, 1)]) = some (1 / 2) := by
  refine ⟨C10_zero_denominator.1 7, ?_, ?_⟩
  · exact C10_zero_denominator.2.1 7 2 (by decide)
  · have h := C10_zero_denominator.2.2.1 9 (30, 1) (0, 1) []
    rw [h]
    norm_num [rational_to_f64]

/-! ## Helper lemmas: SQLite LIKE -/

theorem likeMatchF_pct : ∀ (s : List Char) (fuel : Nat), s.length + 2 ≤ fuel →
    likeMatchF fuel ['%'] s = true := by
  intro s
  induction s with
  | nil =>
    intro fuel hf
    obtain ⟨f, rfl⟩ : ∃ f, fuel = f + 1 := ⟨fuel - 1, by omega⟩
    have h1 : 1 ≤ f := by omega
    obtain ⟨f2, rfl⟩ : ∃ f2, f = f2 + 1 := ⟨f - 1, by omega⟩
    simp [likeMatchF]
  | cons c s2 ih =>
    intro fuel hf
    obtain ⟨f, rfl⟩ : ∃ f, fuel = f + 1 := ⟨fuel - 1, by simp at hf; omega⟩
    have hI := ih f (by simp at hf ⊢; omega)
    simp [likeMatchF, hI]

theorem likeMatchF_self : ∀ (x s : List Char) (fuel : Nat),
    (x.length + 2) + (x.length + 1 + s.length) + 1 ≤ fuel →
    likeMatchF fuel (x ++ ('/' :: '%' :: [])) (x ++ ('/' :: s)) = true := by
  intro x
  induction x with
  | nil =>
    intro s fuel hf
    obtain ⟨f, rfl⟩ : ∃ f, fuel = f + 1 := ⟨fuel - 1, by simp at hf; omega⟩
    have hA := likeMatchF_pct s f (by simp at hf; omega)
    simp [likeMatchF, hA]
  | cons c x2 ih =>
    intro s fuel hf
    obtain ⟨f, rfl⟩ : ∃ f, fuel = f + 1 := ⟨fuel - 1, by simp at hf; omega⟩
    by_cases hc : c = '%'
    · subst hc
      obtain ⟨f2, rfl⟩ : ∃ f2, f = f2 + 1 := ⟨f - 1, by simp at hf; omega⟩
      have hI := ih s f2 (by simp at hf ⊢; omega)
      simp [likeMatchF, hI]
    by_cases hc2 : c = '_'
    · subst hc2
      have hI := ih s f (by simp at hf ⊢; omega)
      simp [likeMatchF, hI]
    · have hI := ih s f (by simp at hf ⊢; omega)
      simp [likeMatchF, hc, hc2, hI]

theorem likeMatchF_nowild : ∀ (p t : List Char) (fuel : Nat),
    '%' ∉ p → '_' ∉ p → p.length + 1 + t.length + 1 ≤ fuel →
    likeMatchF fuel (p ++ ['%']) t = ciPrefix p t := by
  intro p
  induction p with
  | nil =>
    intro t fuel h1 h2 hf
    rw [show ([] : List Char) ++ ['%'] = ['%'] from rfl]
    rw [likeMatchF_pct t fuel (by simp at hf; omega)]
    cases t <;> rfl
  | cons c p2 ih =>
    intro t fuel h1 h2 hf
    have hc1 : c ≠ '%' := by
      intro h
      exact h1 (by rw [h]; exact List.mem_cons_self '%' p2)
    have hc2 : c ≠ '_' := by
      intro h
      exact h2 (by rw [h]; exact List.mem_cons_self '_' p2)
    obtain ⟨f, rfl⟩ : ∃ f, fuel = f + 1 := ⟨fuel - 1, by simp at hf; omega⟩
    cases t with
    | nil =>
      simp [likeMatchF, hc1, hc2, ciPrefix, List.isPrefixOf]
    | cons d t2 =>
      have hI := ih t2 f (fun h => h1 (List.mem_cons_of_mem c h))
        (fun h => h2 (List.mem_cons_of_mem c h)) (by simp at hf ⊢; omega)
      simp only [ciPrefix] at hI
      simp only [List.cons_append, likeMatchF, if_neg hc1, if_neg hc2,
        List.append_eq, hI, ciPrefix, List.map_cons, List.isPrefixOf]

theorem sqlLike_self (x suffix : String) :
    sqlLike (x ++ "/%") (x ++ "/" ++ suffix) = true := by
  unfold sqlLike
  have h1 : (x ++ "/%").data = x.data ++ ('/' :: '%' :: []) := by
    rw [String.data_append]
  have h2 : (x ++ "/" ++ suffix).data = x.data ++ ('/' :: suffix.data) := by
    simp [String.data_append]
  rw [h1, h2]
  exact likeMatchF_self x.data suffix.data _
    (by simp [List.length_append] <;> omega)

theorem sqlLike_nowild (p t : String) (h1 : '%' ∉ p.data) (h2 : '_' ∉ p.data) :
    sqlLike (p ++ "/%") t = ciPrefix (p.data ++ ['/']) t.data := by
  unfold sqlLike
  have hd : (p ++ "/%").data = (p.data ++ ['/']) ++ ['%'] := by
    rw [String.data_append]
    simp
  rw [hd]
  refine likeMatchF_nowild (p.data ++ ['/']) t.data _ ?_ ?_ ?_
  · intro h
    rcases List.mem_append.mp h with h | h
    · exact h1 h
    · simp at h
  · intro h
    rcases List.mem_append.mp h with h | h
    · exact h2 h
    · simp at h
  · simp [List.length_append] <;> omega

/-- Claim C7 (counterexample): the claim says `deletePrefix(p)` removes only
the record at `p` and records strictly under `p/` (directory-boundary match).
But the SQL `LIKE` pattern treats `_` in the prefix as a single-character
wildcard: `deletePrefix("a/_")` removes the record at "a/c/x", which is
neither equal to "a/_" nor under "a/_/". -/
theorem C7_counterexample :
    get_file_meta
        (delete_meta_under
          [⟨"a/c/x", none, none, none, none, none, none, none, 1, 1⟩] "a/_")
        "a/c/x" = none
    ∧ ("a/c/x" : String) ≠ "a/_"
    ∧ ¬ ("a/_/".data.isPrefixOf "a/c/x".data = true) := by
  decide

/-- Claim C7 (amended): `delete_meta_prefix(p)` (for slash-trimmed `p`)
removes exactly the records whose path equals `p` or whose path matches the
SQL LIKE pattern `p/%` — for a `p` free of the LIKE wildcards `%` and `_`,
that is an ASCII-case-insensitive directory-boundary match: the path starts
with `p/` up to ASCII case. In particular, with matching case,
`deletePrefix("a/b")` removes "a/b" and everything nested under it while
leaving "a/bb/x.raw" untouched. -/
theorem C7_delete_boundary :
    ∀ (db : List FileRow) (p : String) (r : FileRow),
      trimSlashes p = p → '%' ∉ p.data → '_' ∉ p.data →
      (r ∈ delete_meta_under db p ↔
        r ∈ db ∧ ¬(r.path = p ∨ ciPrefix (p.data ++ ['/']) r.path.data = true)) := by
  intro db p r ht h1 h2
  have hlk := sqlLike_nowild p r.path h1 h2
  show r ∈ db.filter
      (fun r => !(r.path == trimSlashes p || sqlLike (trimSlashes p ++ "/%") r.path))
    ↔ _
  rw [ht, List.mem_filter]
  simp [hlk, not_or]

theorem C7_witness :
    (⟨"a/bb/x.raw", none, none, none, none, none, none, none, 1, 1⟩ : FileRow)
        ∈ delete_meta_under
            [⟨"a/b/y", none, none, none, none, none, none, none, 1, 1⟩,
              ⟨"a/bb/x.raw", none, none, none, none, none, none, none, 1, 1⟩] "a/b"
    ∧ ¬ ((⟨"a/b/y", none, none, none, none, none, none, none, 1, 1⟩ : FileRow)
        ∈ delete_meta_under
            [⟨"a/b/y", none, none, none, none, none, none, none, 1, 1⟩,
              ⟨"a/bb/x.raw", none, none, none, none, none, none, none, 1, 1⟩] "a/b") := by
  constructor
  · exact (C7_delete_boundary
      [⟨"a/b/y", none, none, none, none, none, none, none, 1, 1⟩,
        ⟨"a/bb/x.raw", none, none, none, none, none, none, none, 1, 1⟩]
      "a/b" ⟨"a/bb/x.raw", none, none, none, none, none, none, none, 1, 1⟩
      (by decide) (by decide) (by decide)).mpr ⟨by decide, by decide⟩
  · intro hmem
    have h := (C7_delete_boundary
      [⟨"a/b/y", none, none, none, none, none, none, none, 1, 1⟩,
        ⟨"a/bb/x.raw", none, none, none, none, none, none, none, 1, 1⟩]
      "a/b" ⟨"a/b/y", none, none, none, none, none, none, none, 1, 1⟩
      (by decide) (by decide) (by decide)).mp hmem
    exact h.2 (Or.inr (by decide))

/-- Claim C6 (counterexample): the claim quantifies over all prefixes a and b
and asserts that after movePrefix(a, b) a get of an old path under a returns
none; with a = b = "a" the bulk rewrite maps every path to itself, so the
old path still returns the original record. -/
theorem C6_counterexample :
    get_file_meta
        (move_meta_under
          [⟨"a/x", none, none, none, none, none, none, none, 1, 1⟩] "a" "a")
        "a/x"
      = some (row_to_meta ⟨"a/x", none, none, none, none, none, none, none, 1, 1⟩)
    ∧ get_file_meta
        (move_meta_under
          [⟨"a/x", none, none, none, none, none, none, none, 1, 1⟩] "a" "a")
        "a/x" ≠ none := by
  decide

theorem dbGet_move_old_none (a b suffix : String)
    (hab : ¬((a ++ "/").data.isPrefixOf (b ++ "/").data = true))
    (hba : ¬((b ++ "/").data.isPrefixOf (a ++ "/").data = true)) :
    ∀ db : List FileRow,
      dbGet (db.map (fun r =>
          if sqlLike (a ++ "/%") r.path then
            { r with path :=
                (b ++ "/") ++ String.mk (r.path.data.drop (a.data.length + 1)) }
          else r)) (a ++ "/" ++ suffix) = none := by
  intro db
  rw [dbGet, List.find?_eq_none]
  intro x hx
  obtain ⟨r, hrm, rfl⟩ := List.mem_map.mp hx
  cases hlk : sqlLike (a ++ "/%") r.path with
  | false =>
    simp only [hlk, Bool.false_eq_true, if_false]
    intro hbeq
    have hre : r.path = a ++ "/" ++ suffix := by simpa using hbeq
    rw [hre, sqlLike_self] at hlk
    exact absurd hlk (by simp)
  | true =>
    simp only [hlk, if_true]
    intro hbeq
    have heq : (b ++ "/") ++ String.mk (r.path.data.drop (a.data.length + 1))
        = a ++ "/" ++ suffix := by simpa using hbeq
    have hdata := congrArg String.data heq
    rw [String.data_append] at hdata
    have hpre_b : (b ++ "/").data <+: (a ++ "/" ++ suffix).data :=
      ⟨(String.mk (r.path.data.drop (a.data.length + 1))).data, hdata⟩
    have hpre_a : (a ++ "/").data <+: (a ++ "/" ++ suffix).data := by
      refine ⟨suffix.data, ?_⟩
      rw [← String.data_append]
    rcases le_or_lt ((b ++ "/").data.length) ((a ++ "/").data.length) with hle | hlt
    · exact hba (List.isPrefixOf_iff_prefix.mpr
        (List.prefix_of_prefix_length_le hpre_b hpre_a hle))
    · exact hab (List.isPrefixOf_iff_prefix.mpr
        (List.prefix_of_prefix_length_le hpre_a hpre_b (le_of_lt hlt)))

theorem dbGet_move_target (a b suffix : String) :
    ∀ (db : List FileRow) (row : FileRow),
      dbGet db (a ++ "/" ++ suffix) = some row →
      dbGet db (b ++ "/" ++ suffix) = none →
      (∀ r ∈ db, sqlLike (a ++ "/%") r.path = true →
          r.path.data.drop (a.data.length + 1) = suffix.data →
          r.path = a ++ "/" ++ suffix) →
      dbGet (db.map (fun r =>
          if sqlLike (a ++ "/%") r.path then
            { r with path :=
                (b ++ "/") ++ String.mk (r.path.data.drop (a.data.length + 1)) }
          else r)) (b ++ "/" ++ suffix)
        = some { row with path := b ++ "/" ++ suffix } := by
  have hK2 : (a ++ "/" ++ suffix).data.drop (a.data.length + 1) = suffix.data := by
    have hsh : (a ++ "/" ++ suffix).data = (a.data ++ ['/']) ++ suffix.data := by
      simp [String.data_append]
    rw [hsh, show a.data.length + 1 = (a.data ++ ['/']).length by simp]
    exact List.drop_left _ _
  intro db
  induction db with
  | nil =>
    intro row h _ _
    simp [dbGet, List.find?] at h
  | cons r db ih =>
    intro row hrow hdest huniq
    by_cases hr : r.path = a ++ "/" ++ suffix
    · have hrr : row = r := by
        simp only [dbGet, List.find?_cons, hr, beq_self_eq_true, cond_true] at hrow
        exact (Option.some.injEq _ _ ▸ hrow).symm
      subst hrr
      have hlk : sqlLike (a ++ "/%") row.path = true := by
        rw [hr]
        exact sqlLike_self a suffix
      simp only [List.map_cons, dbGet, List.find?_cons, hlk, if_true]
      rw [hr, hK2]
      simp only [show String.mk suffix.data = suffix from rfl, beq_self_eq_true,
        cond_true]
    · have hrb : (r.path == (a ++ "/" ++ suffix)) = false := by simp [hr]
      have hrow2 : dbGet db (a ++ "/" ++ suffix) = some row := by
        simp only [dbGet, List.find?_cons, hrb, cond_false] at hrow
        exact hrow
      have hdnew : (r.path == (b ++ "/" ++ suffix)) = false := by
        by_contra hc
        simp only [dbGet, List.find?_cons, Bool.not_eq_false] at hdest hc
        simp [hc] at hdest
      have hdest2 : dbGet db (b ++ "/" ++ suffix) = none := by
        simp only [dbGet, List.find?_cons, hdnew, cond_false] at hdest
        exact hdest
      have huniq2 : ∀ r2 ∈ db, sqlLike (a ++ "/%") r2.path = true →
          r2.path.data.drop (a.data.length + 1) = suffix.data →
          r2.path = a ++ "/" ++ suffix :=
        fun r2 hm => huniq r2 (List.mem_cons_of_mem r hm)
      have hskip : ((if sqlLike (a ++ "/%") r.path then
          { r with path :=
              (b ++ "/") ++ String.mk (r.path.data.drop (a.data.length + 1)) }
          else r).path == (b ++ "/" ++ suffix)) = false := by
        cases hlk : sqlLike (a ++ "/%") r.path with
        | false => simpa [hlk] using hdnew
        | true =>
          simp only [hlk, if_true]
          by_contra hc
          simp only [Bool.not_eq_false, beq_iff_eq] at hc
          have h1 := congrArg String.data hc
          rw [String.data_append, String.data_append] at h1
          have hXeq : r.path.data.drop (a.data.length + 1) = suffix.data :=
            List.append_cancel_left h1
          exact hr (huniq r (List.mem_cons_self r db) hlk hXeq)
      simp only [List.map_cons, dbGet, List.find?_cons, hskip, cond_false]
      exact ih row hrow2 hdest2 huniq2

/-- Claim C6 (amended): movePrefix(a, b), for slash-trimmed distinct prefixes
a and b with b nonempty, neither a directory-ancestor of the other, rewrites
in one bulk operation every record whose path LIKE-matches `a/%`, replacing
the prefix and preserving the suffix; and when the database has a record at
`a/suffix`, no record at `b/suffix`, and no other LIKE-matching record with
that same suffix, a get of the old path `a/suffix` afterwards returns none
while a get of `b/suffix` returns the original record with its path
rewritten and all other fields intact. -/
theorem C6_move_rewrite :
    ∀ (db : List FileRow) (a b suffix : String) (row : FileRow),
      trimSlashes a = a → trimSlashes b = b → b ≠ "" →
      ¬((a ++ "/").data.isPrefixOf (b ++ "/").data = true) →
      ¬((b ++ "/").data.isPrefixOf (a ++ "/").data = true) →
      dbGet db (a ++ "/" ++ suffix) = some row →
      dbGet db (b ++ "/" ++ suffix) = none →
      (∀ r ∈ db, sqlLike (a ++ "/%") r.path = true →
          r.path.data.drop (a.data.length + 1) = suffix.data →
          r.path = a ++ "/" ++ suffix) →
      get_file_meta (move_meta_under db a b) (a ++ "/" ++ suffix) = none
      ∧ get_file_meta (move_meta_under db a b) (b ++ "/" ++ suffix)
          = some { row_to_meta row with path := b ++ "/" ++ suffix }
      ∧ (∀ r ∈ db, sqlLike (a ++ "/%") r.path = true →
          { r with path :=
              (b ++ "/") ++ String.mk (r.path.data.drop (a.data.length + 1)) }
            ∈ move_meta_under db a b) := by
  intro db a b suffix row ha hb hbne hab hba hrow hdest huniq
  have hmap : move_meta_under db a b = db.map (fun r =>
      if sqlLike (a ++ "/%") r.path then
        { r with path :=
            (b ++ "/") ++ String.mk (r.path.data.drop (a.data.length + 1)) }
      else r) := by
    simp only [move_meta_under, ha, hb, hbne, if_false]
  refine ⟨?_, ?_, ?_⟩
  · rw [get_file_meta, hmap, dbGet_move_old_none a b suffix hab hba db]
    rfl
  · rw [get_file_meta, hmap, dbGet_move_target a b suffix db row hrow hdest huniq]
    rfl
  · intro r hm hlk
    rw [hmap]
    exact List.mem_map.mpr ⟨r, hm, by simp [hlk]⟩

theorem C6_witness :
    get_file_meta
        (move_meta_under
          [⟨"a/b/x.raw", some 1, some 2, some "old", none, none, some "t", some 3, 5, 6⟩]
          "a/b" "a/c")
        "a/b/x.raw" = none
    ∧ get_file_meta
        (move_meta_under
          [⟨"a/b/x.raw", some 1, some 2, some "old", none, none, some "t", some 3, 5, 6⟩]
          "a/b" "a/c")
        "a/c/x.raw"
      = some ⟨"a/c/x.raw", some 1, some 2, [], none, none, some "t", some 3, 5, 6⟩ := by
  have h := C6_move_rewrite
    [⟨"a/b/x.raw", some 1, some 2, some "old", none, none, some "t", some 3, 5, 6⟩]
    "a/b" "a/c" "x.raw"
    ⟨"a/b/x.raw", some 1, some 2, some "old", none, none, some "t", some 3, 5, 6⟩
    (by decide) (by decide) (by decide) (by decide) (by decide) (by decide)
    (by decide) (by decide)
  exact ⟨h.1, h.2.1⟩

/-! ## Helper lemmas: the JPEG marker scanner -/

theorem getElem?_some_lt {l : List Nat} {n a : Nat} (h : l[n]? = some a) :
    n < l.length := by
  by_contra hc
  rw [List.getElem?_eq_none (by omega)] at h
  simp at h

theorem drop_cons_facts (data : List Nat) (j b : Nat) (l : List Nat)
    (h : data.drop j = b :: l) :
    data[j]? = some b ∧ data.drop (j + 1) = l ∧ j < data.length := by
  have h0 : (data.drop j)[0]? = some b := by rw [h]; simp
  rw [List.getElem?_drop] at h0
  refine ⟨by simpa using h0, ?_, getElem?_some_lt (by simpa using h0)⟩
  have h1 : (data.drop j).drop 1 = l := by rw [h]; rfl
  rw [List.drop_drop] at h1
  exact h1

theorem findEndScan_some (data : List Nat) :
    ∀ (l : List Nat) (j e : Nat), data.drop j = l → findEndScan l j = some e →
      j + 2 ≤ e ∧ e ≤ data.length ∧ isEndB data (e - 2)
        ∧ ∀ k, j ≤ k → k < e - 2 → ¬ isEndB data k := by
  intro l
  induction l with
  | nil =>
    intro j e _ h
    simp [findEndScan] at h
  | cons b1 l1 ih =>
    intro j e hdrop h
    obtain ⟨hb1, hdrop1, hjlt⟩ := drop_cons_facts data j b1 l1 hdrop
    cases l1 with
    | nil => simp [findEndScan] at h
    | cons b2 rest =>
      obtain ⟨hb2, _, hjlt2⟩ := drop_cons_facts data (j + 1) b2 rest hdrop1
      by_cases hcond : (b1 = 255 && b2 = 217) = true
      · rw [show findEndScan (b1 :: b2 :: rest) j
            = (if (b1 = 255 && b2 = 217) = true then some (j + 2)
               else findEndScan (b2 :: rest) (j + 1)) from rfl, if_pos hcond] at h
        obtain rfl : e = j + 2 := by
          cases h
          rfl
        simp only [Bool.and_eq_true, decide_eq_true_eq] at hcond
        refine ⟨le_refl _, by omega, ?_, ?_⟩
        · constructor
          · simpa [hcond.1] using hb1
          · simpa [hcond.2] using hb2
        · intro k hk1 hk2
          omega
      · rw [show findEndScan (b1 :: b2 :: rest) j
            = (if (b1 = 255 && b2 = 217) = true then some (j + 2)
               else findEndScan (b2 :: rest) (j + 1)) from rfl, if_neg hcond] at h
        obtain ⟨he1, he2, he3, he4⟩ := ih (j + 1) e hdrop1 h
        refine ⟨by omega, he2, he3, ?_⟩
        intro k hk1 hk2
        rcases Nat.eq_or_lt_of_le hk1 with rfl | hgt
        · intro hend
          apply hcond
          obtain ⟨hA, hB⟩ := hend
          rw [hb1] at hA
          rw [hb2] at hB
          simp [Option.some.injEq] at hA hB
          simp [hA, hB]
        · exact he4 k (by omega) hk2

theorem findEndScan_none (data : List Nat) :
    ∀ (l : List Nat) (j : Nat), data.drop j = l → findEndScan l j = none →
      ∀ k, j ≤ k → k + 1 < data.length → ¬ isEndB data k := by
  intro l
  induction l with
  | nil =>
    intro j hdrop _ k hk1 hk2 _
    have : data.length - j = 0 := by
      have := congrArg List.length hdrop
      simpa [List.length_drop] using this
    omega
  | cons b1 l1 ih =>
    intro j hdrop h k hk1 hk2
    obtain ⟨hb1, hdrop1, hjlt⟩ := drop_cons_facts data j b1 l1 hdrop
    cases l1 with
    | nil =>
      have : data.length - j = 1 := by
        have := congrArg List.length hdrop
        simpa [List.length_drop] using this
      intro _
      omega
    | cons b2 rest =>
      obtain ⟨hb2, _, _⟩ := drop_cons_facts data (j + 1) b2 rest hdrop1
      by_cases hcond : (b1 = 255 && b2 = 217) = true
      · rw [show findEndScan (b1 :: b2 :: rest) j
            = (if (b1 = 255 && b2 = 217) = true then some (j + 2)
               else findEndScan (b2 :: rest) (j + 1)) from rfl, if_pos hcond] at h
        simp at h
      · rw [show findEndScan (b1 :: b2 :: rest) j
            = (if (b1 = 255 && b2 = 217) = true then some (j + 2)
               else findEndScan (b2 :: rest) (j + 1)) from rfl, if_neg hcond] at h
        rcases Nat.eq_or_lt_of_le hk1 with rfl | hgt
        · intro hend
          apply hcond
          obtain ⟨hA, hB⟩ := hend
          rw [hb1] at hA
          rw [hb2] at hB
          simp [Option.some.injEq] at hA hB
          simp [hA, hB]
        · exact ih (j + 1) hdrop1 h k (by omega) hk2

theorem findEndScan_exists (data : List Nat) :
    ∀ (l : List Nat) (j : Nat), data.drop j = l →
      ∀ k, j ≤ k → k + 1 < data.length → isEndB data k →
        ∃ e, findEndScan l j = some e ∧ e ≤ k + 2 := by
  intro l
  induction l with
  | nil =>
    intro j hdrop k hk1 hk2 _
    have : data.length - j = 0 := by
      have := congrArg List.length hdrop
      simpa [List.length_drop] using this
    omega
  | cons b1 l1 ih =>
    intro j hdrop k hk1 hk2 hend
    obtain ⟨hb1, hdrop1, hjlt⟩ := drop_cons_facts data j b1 l1 hdrop
    cases l1 with
    | nil =>
      have : data.length - j = 1 := by
        have := congrArg List.length hdrop
        simpa [List.length_drop] using this
      omega
    | cons b2 rest =>
      obtain ⟨hb2, _, _⟩ := drop_cons_facts data (j + 1) b2 rest hdrop1
      by_cases hcond : (b1 = 255 && b2 = 217) = true
      · refine ⟨j + 2, ?_, by omega⟩
        rw [show findEndScan (b1 :: b2 :: rest) j
            = (if (b1 = 255 && b2 = 217) = true then some (j + 2)
               else findEndScan (b2 :: rest) (j + 1)) from rfl, if_pos hcond]
      · have hkne : j ≠ k := by
          intro hjk
          subst hjk
          apply hcond
          obtain ⟨hA, hB⟩ := hend
          rw [hb1] at hA
          rw [hb2] at hB
          simp [Option.some.injEq] at hA hB
          simp [hA, hB]
        obtain ⟨e, he1, he2⟩ := ih (j + 1) hdrop1 k (by omega) hk2 hend
        refine ⟨e, ?_, he2⟩
        rw [show findEndScan (b1 :: b2 :: rest) j
            = (if (b1 = 255 && b2 = 217) = true then some (j + 2)
               else findEndScan (b2 :: rest) (j + 1)) from rfl, if_neg hcond]
        exact he1

theorem find_end_from_some (data : List Nat) (i e : Nat)
    (h : find_end_from data i = some e) :
    i + 2 ≤ e ∧ e ≤ data.length ∧ isEndB data (e - 2)
      ∧ ∀ k, i ≤ k → k < e - 2 → ¬ isEndB data k :=
  findEndScan_some data (data.drop i) i e rfl h

theorem find_end_from_none (data : List Nat) (i : Nat)
    (h : find_end_from data i = none) :
    ∀ k, i ≤ k → k + 1 < data.length → ¬ isEndB data k :=
  findEndScan_none data (data.drop i) i rfl h

theorem find_end_from_exists (data : List Nat) (i k : Nat) (h1 : i ≤ k)
    (h2 : k + 1 < data.length) (h3 : isEndB data k) :
    ∃ e, find_end_from data i = some e ∧ e ≤ k + 2 :=
  findEndScan_exists data (data.drop i) i rfl k h1 h2 h3

theorem findLargestJpegAux_sound (data : List Nat) :
    ∀ (fuel i : Nat) (best : Option (Nat × Nat)),
      (∀ s e, best = some (s, e) →
        isStartB data s ∧ isEndB data (e - 2) ∧ s + 4 ≤ e ∧ e ≤ data.length) →
      ∀ s e, findLargestJpegAux data fuel i best = some (s, e) →
        isStartB data s ∧ isEndB data (e - 2) ∧ s + 4 ≤ e ∧ e ≤ data.length := by
  intro fuel
  induction fuel with
  | zero => intro i best hb s e h; exact hb s e h
  | succ f ih =>
    intro i best hb s e h
    by_cases hlen : i + 1 < data.length
    · by_cases hst : (data[i]? == some 255 && data[i + 1]? == some 216) = true
      · cases hfe : find_end_from data (i + 2) with
        | none =>
          rw [show findLargestJpegAux data (f + 1) i best = best by
            rw [findLargestJpegAux, if_pos hlen, if_pos hst, hfe]] at h
          exact hb s e h
        | some e0 =>
          rw [show findLargestJpegAux data (f + 1) i best
              = findLargestJpegAux data f e0
                  (if bestSize best < e0 - i then some (i, e0) else best) by
            rw [findLargestJpegAux, if_pos hlen, if_pos hst, hfe]] at h
          refine ih e0 _ ?_ s e h
          intro s2 e2 hb2
          by_cases hx : bestSize best < e0 - i
          · rw [if_pos hx] at hb2
            simp only [Option.some.injEq, Prod.mk.injEq] at hb2
            obtain ⟨rfl, rfl⟩ := hb2
            obtain ⟨hfe1, hfe2, hfe3, _⟩ := find_end_from_some data (i + 2) e0 hfe
            simp only [Bool.and_eq_true, beq_iff_eq] at hst
            exact ⟨⟨hst.1, hst.2⟩, hfe3, by omega, hfe2⟩
          · rw [if_neg hx] at hb2
            exact hb s2 e2 hb2
      · rw [show findLargestJpegAux data (f + 1) i best
            = findLargestJpegAux data f (i + 1) best by
          rw [findLargestJpegAux, if_pos hlen, if_neg hst]] at h
        exact ih (i + 1) best hb s e h
    · rw [show findLargestJpegAux data (f + 1) i best = best by
        rw [findLargestJpegAux, if_neg hlen]] at h
      exact hb s e h

theorem findLargestJpegAux_max (data : List Nat) :
    ∀ (fuel i : Nat) (best : Option (Nat × Nat)),
      data.length ≤ fuel + i →
      bestSize best ≤ bestSize (findLargestJpegAux data fuel i best)
      ∧ (∀ s e, i ≤ s → isStartB data s → find_end_from data (s + 2) = some e →
          e - s ≤ bestSize (findLargestJpegAux data fuel i best)) := by
  intro fuel
  induction fuel with
  | zero =>
    intro i best hfi
    refine ⟨le_refl _, ?_⟩
    intro s e hs hstart _
    have hl : s + 1 < data.length := getElem?_some_lt hstart.2
    omega
  | succ f ih =>
    intro i best hfi
    by_cases hlen : i + 1 < data.length
    · by_cases hst : (data[i]? == some 255 && data[i + 1]? == some 216) = true
      · cases hfe0 : find_end_from data (i + 2) with
        | none =>
          rw [show findLargestJpegAux data (f + 1) i best = best by
            rw [findLargestJpegAux, if_pos hlen, if_pos hst, hfe0]]
          refine ⟨le_refl _, ?_⟩
          intro s e hs hstart hfe
          exfalso
          obtain ⟨he1, he2, he3, _⟩ := find_end_from_some data (s + 2) e hfe
          exact find_end_from_none data (i + 2) hfe0 (e - 2) (by omega) (by omega) he3
        | some e0 =>
          obtain ⟨hf1, hf2, hf3, hf4⟩ := find_end_from_some data (i + 2) e0 hfe0
          rw [show findLargestJpegAux data (f + 1) i best
              = findLargestJpegAux data f e0
                  (if bestSize best < e0 - i then some (i, e0) else best) by
            rw [findLargestJpegAux, if_pos hlen, if_pos hst, hfe0]]
          obtain ⟨hm, hmax⟩ := ih e0
            (if bestSize best < e0 - i then some (i, e0) else best) (by omega)
          have hb2 : bestSize best
              ≤ bestSize (if bestSize best < e0 - i then some (i, e0) else best) := by
            by_cases hx : bestSize best < e0 - i
            · rw [if_pos hx]
              show bestSize best ≤ e0 - i
              omega
            · rw [if_neg hx]
          have hb2e : e0 - i
              ≤ bestSize (if bestSize best < e0 - i then some (i, e0) else best) := by
            by_cases hx : bestSize best < e0 - i
            · rw [if_pos hx]
              show e0 - i ≤ e0 - i
              exact le_refl _
            · rw [if_neg hx]
              omega
          refine ⟨le_trans hb2 hm, ?_⟩
          intro s e hs hstart hfe
          rcases Nat.lt_or_ge s e0 with hslt | hsge
          · rcases Nat.eq_or_lt_of_le hs with rfl | hgt
            · rw [hfe0] at hfe
              obtain rfl : e0 = e := by
                simpa using hfe
              exact le_trans (le_trans (le_refl _) hb2e) hm
            · have hne1 : s ≠ e0 - 1 := by
                intro hx
                have hA := hstart.1
                have hB := hf3.2
                rw [hx] at hA
                rw [show e0 - 2 + 1 = e0 - 1 by omega] at hB
                rw [hA] at hB
                simp at hB
              have hne2 : s ≠ e0 - 2 := by
                intro hx
                have hA := hstart.2
                have hB := hf3.2
                rw [hx, show e0 - 2 + 1 = e0 - 1 by omega] at hA
                rw [show e0 - 2 + 1 = e0 - 1 by omega] at hB
                rw [hA] at hB
                simp at hB
              have hne3 : s ≠ e0 - 3 := by
                intro hx
                have hA := hstart.2
                have hB := hf3.1
                rw [hx, show e0 - 3 + 1 = e0 - 2 by omega] at hA
                rw [hA] at hB
                simp at hB
              have hs4 : s ≤ e0 - 4 := by omega
              obtain ⟨hg1, hg2, hg3, hg4⟩ := find_end_from_some data (s + 2) e hfe
              have hee0 : e ≤ e0 := by
                by_contra hc
                exact hg4 (e0 - 2) (by omega) (by omega) hf3
              have : e - s < e0 - i := by omega
              exact le_trans (le_of_lt (Nat.lt_of_lt_of_le this hb2e)) hm
          · exact hmax s e hsge hstart hfe
      · rw [show findLargestJpegAux data (f + 1) i best
            = findLargestJpegAux data f (i + 1) best by
          rw [findLargestJpegAux, if_pos hlen, if_neg hst]]
        obtain ⟨hm, hmax⟩ := ih (i + 1) best (by omega)
        refine ⟨hm, ?_⟩
        intro s e hs hstart hfe
        rcases Nat.eq_or_lt_of_le hs with rfl | hgt
        · exfalso
          apply hst
          simp only [Bool.and_eq_true, beq_iff_eq]
          exact ⟨hstart.1, hstart.2⟩
        · exact hmax s e (by omega) hstart hfe
    · rw [show findLargestJpegAux data (f + 1) i best = best by
        rw [findLargestJpegAux, if_neg hlen]]
      refine ⟨le_refl _, ?_⟩
      intro s e hs hstart _
      have hl : s + 1 < data.length := getElem?_some_lt hstart.2
      omega

/-- Claim C5: the preview scanner selects the largest JPEG start/end
marker-pair range and writes exactly those bytes verbatim, returning true;
with no valid marker pair it returns false and writes nothing. Precisely:
the scan returns none iff the buffer holds no start marker with an end
marker strictly after it (and then nothing is written, result false); and
when it returns a range, that range starts at an `FF D8`, ends just past an
`FF D9`, exactly that byte slice is written with result true, and the range
is at least as long as the range the scan associates with any other start
marker (its first end marker at or after start+2). -/
theorem C5_preview_scanner :
    ∀ data : List Nat,
      (find_largest_jpeg data = none ↔ ¬ hasPair data)
      ∧ (find_largest_jpeg data = none → ensure_preview data = (false, none))
      ∧ (∀ s e, find_largest_jpeg data = some (s, e) →
          isStartB data s ∧ isEndB data (e - 2) ∧ s + 4 ≤ e ∧ e ≤ data.length
          ∧ ensure_preview data = (true, some ((data.drop s).take (e - s)))
          ∧ (∀ s2 e2, isStartB data s2 → find_end_from data (s2 + 2) = some e2 →
              e2 - s2 ≤ e - s)) := by
  intro data
  have hsound := findLargestJpegAux_sound data (data.length + 1) 0 none
    (fun s e h => by simp at h)
  have hmax := findLargestJpegAux_max data (data.length + 1) 0 none (by omega)
  constructor
  · constructor
    · intro hnone hpair
      obtain ⟨s, j, hstart, hend, hj, hjlen⟩ := hpair
      obtain ⟨e2, hfe2, _⟩ := find_end_from_exists data (s + 2) j hj hjlen hend
      have h1 := hmax.2 s e2 (Nat.zero_le s) hstart hfe2
      rw [show findLargestJpegAux data (data.length + 1) 0 none
          = find_largest_jpeg data from rfl, hnone] at h1
      obtain ⟨hg1, _, _, _⟩ := find_end_from_some data (s + 2) e2 hfe2
      simp [bestSize] at h1
      omega
    · intro hnp
      cases hres : find_largest_jpeg data with
      | none => rfl
      | some p =>
        exfalso
        obtain ⟨s, e⟩ := p
        obtain ⟨hstart, hend, hse, hel⟩ := hsound s e hres
        exact hnp ⟨s, e - 2, hstart, hend, by omega, by omega⟩
  constructor
  · intro hnone
    unfold ensure_preview
    rw [hnone]
  · intro s e hres
    obtain ⟨hstart, hend, hse, hel⟩ := hsound s e hres
    refine ⟨hstart, hend, hse, hel, ?_, ?_⟩
    · unfold ensure_preview
      rw [hres]
      show (if s < e then (true, some ((data.drop s).take (e - s))) else (false, none))
        = (true, some ((data.drop s).take (e - s)))
      rw [if_pos (by omega : s < e)]
    · intro s2 e2 hstart2 hfe2
      have h1 := hmax.2 s2 e2 (Nat.zero_le s2) hstart2 hfe2
      rw [show findLargestJpegAux data (data.length + 1) 0 none
          = find_largest_jpeg data from rfl, hres] at h1
      simpa [bestSize] using h1

theorem C5_witness :
    find_largest_jpeg [255, 216, 0, 255, 217, 255, 216, 1, 2, 3, 255, 217]
        = some (5, 12)
    ∧ ensure_preview [255, 216, 0, 255, 217, 255, 216, 1, 2, 3, 255, 217]
        = (true, some [255, 216, 1, 2, 3, 255, 217])
    ∧ find_end_from [255, 216, 0, 255, 217, 255, 216, 1, 2, 3, 255, 217] 2 = some 5
    ∧ (5 : Nat) - 0 ≤ 12 - 5
    ∧ find_largest_jpeg [1, 2, 3] = none
    ∧ ensure_preview [1, 2, 3] = (false, none) := by
  refine ⟨by decide, ?_, by decide, ?_, by decide, ?_⟩
  · exact ((C5_preview_scanner
      [255, 216, 0, 255, 217, 255, 216, 1, 2, 3, 255, 217]).2.2 5 12
      (by decide)).2.2.2.2.1
  · exact ((C5_preview_scanner
      [255, 216, 0, 255, 217, 255, 216, 1, 2, 3, 255, 217]).2.2 5 12
      (by decide)).2.2.2.2.2 0 5 ⟨rfl, rfl⟩ (by decide)
  · exact (C5_preview_scanner [1, 2, 3]).2.1 (by decide)

end RawWeb
